import Mathlib

/-!
Verification of the Clasper governance core against its specification.

The development shallowly embeds the security-relevant parts of the source:

* `src/lib/security/stableJson.ts` — canonical (stable) JSON serialization;
* `src/lib/security/sha256.ts` — hash formatting (SHA-256 itself is kept
  abstract as a function parameter);
* `src/lib/governance/toolTokens.ts` — one-shot tool authorization tokens;
* `src/lib/tracing/traceIntegrity.ts` — hash-chained trace verdicts;
* `src/lib/telemetry/signedEnvelope.ts` — signed telemetry envelopes;
* `src/lib/auth/tenantContext.ts` — tenant permission predicates;
* the legacy file-based policy engine (`policyEngine.ts`, YAML rules), and a
  model of the C4 tenant policy engine whose implementation file is absent
  from the sources (only its test suite is present); that model is written
  from the specification text, as marked in its doc comments.
-/

namespace StableJson

/-- JSON values as manipulated by `stableJson.ts` (`JsonValue`).  Object
fields are kept as an ordered association list, mirroring JavaScript object
property insertion order.  Numbers are modelled as integers: §4.2 of the
specification forbids floating-point values that would lose precision in any
hashable payload. -/
inductive JsonValue where
  | null : JsonValue
  | bool (b : Bool) : JsonValue
  | num (n : Int) : JsonValue
  | str (s : String) : JsonValue
  | arr (elems : List JsonValue) : JsonValue
  | obj (fields : List (String × JsonValue)) : JsonValue

/-- The leading UTF-16 code unit of a character: the code point itself below
`0x10000`, otherwise the high surrogate of its surrogate pair. -/
def u16lead (c : Char) : Nat :=
  if c.toNat < 65536 then c.toNat else 55296 + (c.toNat - 65536) / 1024

/-- Strict UTF-16 code-unit order on characters, as compared unit by unit by
JavaScript's string `<`.  A character is a Unicode scalar value, so two
distinct characters either differ already in their leading code unit, or are
two astral characters sharing a high surrogate, which their low surrogates —
equivalently their code points — order. -/
def charU16Lt (c d : Char) : Bool :=
  decide (u16lead c < u16lead d ∨ (u16lead c = u16lead d ∧ c.toNat < d.toNat))

/-- Comparison of character lists in UTF-16 code-unit lexicographic order,
the order of JavaScript string comparison and hence of the default comparator
of `Array.prototype.sort`.  Comparing character by character agrees with
comparing the flattened code-unit sequences: no character's encoding is a
proper prefix of another's, and a lone unit never equals a high surrogate. -/
def charListLe : List Char → List Char → Bool
  | c :: cs, d :: ds => if c = d then charListLe cs ds else charU16Lt c d
  | _ :: _, [] => false
  | [], _ => true

/-- String order in UTF-16 code-unit lexicographic order. -/
def strLe (s t : String) : Prop := charListLe s.toList t.toList = true

/-- Lowercase hexadecimal digit, as used by `JSON.stringify` unicode escapes. -/
def hexDigitChar : Nat → Char
  | 0 => '0'
  | 1 => '1'
  | 2 => '2'
  | 3 => '3'
  | 4 => '4'
  | 5 => '5'
  | 6 => '6'
  | 7 => '7'
  | 8 => '8'
  | 9 => '9'
  | 10 => 'a'
  | 11 => 'b'
  | 12 => 'c'
  | 13 => 'd'
  | 14 => 'e'
  | _ => 'f'

/-- Decimal digits of `n`, most significant first, in front of `acc`; `fuel`
bounds the recursion depth and never runs out when it starts at `n`. -/
def natDigitsGo : Nat → Nat → List Char → List Char
  | 0, n, acc => hexDigitChar n :: acc
  | fuel + 1, n, acc =>
    if n < 10 then hexDigitChar n :: acc
    else natDigitsGo fuel (n / 10) (hexDigitChar (n % 10) :: acc)

/-- Decimal digit characters of a natural number, most significant first,
without leading zeros — the canonical decimal form. -/
def natDigits (n : Nat) : List Char := natDigitsGo n n []

/-- The numeric value of a string of decimal digit characters. -/
def digitsToNat (cs : List Char) : Nat :=
  cs.foldl (fun a c => a * 10 + (c.toNat - 48)) 0

/-- Whether a property key is an *array index* in the ECMAScript sense: the
canonical decimal representation of an integer below `2^32 - 1`.  The check
round-trips the key through its numeric value, which fails exactly on
non-digit characters, leading zeros, the empty string, and out-of-range
values. -/
def isIndexKey (s : String) : Bool :=
  s.toList == natDigits (digitsToNat s.toList)
    && decide (digitsToNat s.toList < 4294967295)

/-- The key order in which JavaScript enumerates an object's own properties
(and in which `JSON.stringify` therefore emits them) once the keys were
inserted in sorted order: array-index keys first, in ascending numeric
order, then the remaining keys in their insertion order — here their
UTF-16 lexicographic order. -/
def keyLe (s t : String) : Bool :=
  if isIndexKey s then
    if isIndexKey t then decide (digitsToNat s.toList ≤ digitsToNat t.toList)
    else true
  else if isIndexKey t then false
  else charListLe s.toList t.toList

/-- Order of two object fields in the serialized output: `keyLe` on the
keys. -/
def fieldLe (a b : String × JsonValue) : Prop := keyLe a.1 b.1 = true

instance : DecidableRel fieldLe :=
  fun a b => inferInstanceAs (Decidable (keyLe a.1 b.1 = true))

/-- The field order of the object `sortObject` builds.  The source inserts
the keys sorted by the default comparator, but the resulting plain object —
and `JSON.stringify` walking it — enumerates array-index keys first in
ascending numeric order and only then the remaining keys in insertion
order; sorting by `fieldLe` produces exactly that enumeration order. -/
def sortFields (fs : List (String × JsonValue)) : List (String × JsonValue) :=
  List.insertionSort fieldLe fs

mutual
/-- `stabilize` from `stableJson.ts`: arrays are stabilized elementwise and
every object is rebuilt as `sortObject` leaves it for `JSON.stringify` to
walk, with its fields in enumeration order (`sortFields`): array-index keys
ascending numerically, then the rest in UTF-16 lexicographic order.  The
source sorts the keys and then recurses into each value; the field order
depends on keys only, so recursing into the values first (as below) is the
same function. -/
def stabilize : JsonValue → JsonValue
  | .null => .null
  | .bool b => .bool b
  | .num n => .num n
  | .str s => .str s
  | .arr xs => .arr (stabilizeList xs)
  | .obj fs => .obj (sortFields (stabilizeFields fs))

/-- Elementwise `stabilize` of an array (`value.map((item) => stabilize(item))`). -/
def stabilizeList : List JsonValue → List JsonValue
  | [] => []
  | x :: xs => stabilize x :: stabilizeList xs

/-- `stabilize` applied to each value of an object's fields. -/
def stabilizeFields : List (String × JsonValue) → List (String × JsonValue)
  | [] => []
  | (k, v) :: fs => (k, stabilize v) :: stabilizeFields fs
end

/-- The character `\x7b` (opening curly brace). -/
def openBraceChar : Char := Char.ofNat 123

/-- The character `\x7d` (closing curly brace). -/
def closeBraceChar : Char := Char.ofNat 125

/-- `JSON.stringify` of an integer: shortest decimal form, with a leading
minus sign for negative values. -/
def renderInt (n : Int) : List Char :=
  if n < 0 then '-' :: natDigits n.natAbs else natDigits n.natAbs

/-- How `JSON.stringify` escapes one character inside a string literal:
quote and backslash get a backslash escape, control characters get their
short escape or a `\u00XX` escape, and every other character is emitted
as-is. -/
def escapeChar (c : Char) : List Char :=
  if c = '"' then ['\\', '"']
  else if c = '\\' then ['\\', '\\']
  else if c.toNat < 32 then
    if c = Char.ofNat 8 then ['\\', 'b']
    else if c = Char.ofNat 9 then ['\\', 't']
    else if c = Char.ofNat 10 then ['\\', 'n']
    else if c = Char.ofNat 12 then ['\\', 'f']
    else if c = Char.ofNat 13 then ['\\', 'r']
    else '\\' :: 'u' :: '0' :: '0' :: [hexDigitChar (c.toNat / 16), hexDigitChar (c.toNat % 16)]
  else [c]

/-- A JSON string literal: quote, escaped characters, quote. -/
def renderString (s : String) : List Char :=
  '"' :: (s.toList.map escapeChar).flatten ++ ['"']

mutual
/-- `JSON.stringify` on a (stabilized) value, as a character list: no
whitespace is ever inserted between tokens. -/
def renderChars : JsonValue → List Char
  | .num n => renderInt n
  | .str s => renderString s
  | .null => 'n' :: ['u', 'l', 'l']
  | .bool true => 't' :: ['r', 'u', 'e']
  | .bool false => 'f' :: ['a', 'l', 's', 'e']
  | .arr xs => '[' :: renderList xs ++ [']']
  | .obj fs => openBraceChar :: renderFields fs ++ [closeBraceChar]

/-- Comma-separated array elements. -/
def renderList : List JsonValue → List Char
  | [] => []
  | [x] => renderChars x
  | x :: y :: xs => renderChars x ++ ',' :: renderList (y :: xs)

/-- Comma-separated `"key":value` object members. -/
def renderFields : List (String × JsonValue) → List Char
  | [] => []
  | [(k, v)] => renderString k ++ ':' :: renderChars v
  | (k, v) :: g :: fs => renderString k ++ ':' :: renderChars v ++ ',' :: renderFields (g :: fs)
end

/-- `stableStringify` from `stableJson.ts`: `JSON.stringify(stabilize(value))`. -/
def stableStringify (v : JsonValue) : String :=
  String.mk (renderChars (stabilize v))

end StableJson

namespace Sha256

open StableJson

/-- `formatSha256` from `sha256.ts`: prefix a hex digest with `sha256:`. -/
def formatSha256 (hex : String) : String := "sha256:" ++ hex

/-- `sha256Json` from `sha256.ts`: hash the stable serialization.  The
SHA-256 compression itself is a crypto-library call; it is modelled as an
explicit function parameter `sha`, assumed injective wherever
collision-resistance matters. -/
def sha256Json (sha : String → String) (v : JsonValue) : String :=
  sha (stableStringify v)

end Sha256

namespace ToolTokens

open StableJson Sha256

/-- One row of the `tool_tokens` table, as inserted by `issueToolToken`
(`toolTokens.ts`).  `used_at` is null until the token is consumed. -/
structure ToolTokenRow where
  jti : String
  tenant_id : String
  adapter_id : String
  execution_id : String
  tool : String
  scope_hash : String
  issued_at : Int
  expires_at : Int
  used_at : Option String
deriving DecidableEq

/-- The claim set passed to `issueToolToken` (`ToolTokenClaims`). -/
structure ToolTokenClaims where
  tenant_id : String
  workspace_id : String
  adapter_id : String
  execution_id : String
  tool : String
  scope : JsonValue

/-- The JWT payload built by `issueToolToken`: the claims plus `typ`,
`scope_hash`, `iat`, `exp` and `jti`. -/
structure ToolTokenPayload where
  typ : String
  tenant_id : String
  workspace_id : String
  adapter_id : String
  execution_id : String
  tool : String
  scope : JsonValue
  scope_hash : String
  iat : Int
  exp : Int
  jti : String

/-- A signed tool token: payload plus HMAC signature.  The JOSE signing
primitive is abstract; a token is well-signed when its `sig` equals the
signing function applied to the secret and the payload. -/
structure SignedToolToken where
  payload : ToolTokenPayload
  sig : String

/-- Error codes of `ToolTokenError` in `toolTokens.ts`. -/
inductive ToolTokenError where
  | config_error : ToolTokenError
  | invalid_token : ToolTokenError
  | expired : ToolTokenError
  | used : ToolTokenError
deriving DecidableEq

/-- `issueToolToken` (`toolTokens.ts`): compute `scope_hash` as the
canonical-JSON SHA-256 of `scope`, sign the claim set, and insert the row
with `used_at` null before returning.  `jti` (a UUIDv7 in the source) and
the current time are explicit parameters; `sha` and `signFn` stand for the
SHA-256 and JOSE HMAC primitives. -/
def issueToolToken (sha : String → String)
    (signFn : String → ToolTokenPayload → String) (secret : String)
    (claims : ToolTokenClaims) (ttlSeconds : Int) (jti : String) (now : Int)
    (db : List ToolTokenRow) :
    SignedToolToken × List ToolTokenRow :=
  let issuedAt := now
  let expiresAt := now + ttlSeconds
  let scopeHash := formatSha256 (sha256Json sha claims.scope)
  let payload : ToolTokenPayload :=
    { typ := "tool_auth"
      tenant_id := claims.tenant_id
      workspace_id := claims.workspace_id
      adapter_id := claims.adapter_id
      execution_id := claims.execution_id
      tool := claims.tool
      scope := claims.scope
      scope_hash := scopeHash
      iat := issuedAt
      exp := expiresAt
      jti := jti }
  let row : ToolTokenRow :=
    { jti := jti
      tenant_id := claims.tenant_id
      adapter_id := claims.adapter_id
      execution_id := claims.execution_id
      tool := claims.tool
      scope_hash := scopeHash
      issued_at := issuedAt
      expires_at := expiresAt
      used_at := none }
  (⟨payload, signFn secret payload⟩, db ++ [row])

/-- `verifyToolToken` (`toolTokens.ts`): require the configured secret, then
`jwtVerify` — a signature check and an expiry check; every JOSE failure is
collapsed to the `invalid_token` code by the catch block.  The full claim
set is returned.  Note the source performs no lookup of the stored row:
the function does not read the `tool_tokens` table at all. -/
def verifyToolToken (signFn : String → ToolTokenPayload → String)
    (secret : Option String) (now : Int) (token : SignedToolToken) :
    Except ToolTokenError ToolTokenPayload :=
  match secret with
  | none => .error .config_error
  | some s =>
    if token.sig = signFn s token.payload then
      if now < token.payload.exp then .ok token.payload
      else .error .invalid_token
    else .error .invalid_token

/-- The `WHERE jti = ? AND used_at IS NULL` predicate of the consume
statement. -/
def consumeHit (jti : String) (r : ToolTokenRow) : Bool :=
  r.jti == jti && r.used_at.isNone

/-- `consumeToolToken` (`toolTokens.ts`): the single conditional SQL update
`UPDATE tool_tokens SET used_at = ? WHERE jti = ? AND used_at IS NULL`,
returning `changes > 0`.  The table is modelled as a row list; the update
touches exactly the rows the WHERE clause selects. -/
def consumeToolToken (now : String) (jti : String) (db : List ToolTokenRow) :
    Bool × List ToolTokenRow :=
  let changes := (db.filter (consumeHit jti)).length
  (changes != 0,
   db.map fun r => if consumeHit jti r then { r with used_at := some now } else r)

/-- A sequence of consume calls for one `jti`, in order, threading the
store; returns the list of results. -/
def consumeSeq (jti : String) (times : List String) (db : List ToolTokenRow) :
    List Bool × List ToolTokenRow :=
  match times with
  | [] => ([], db)
  | t :: ts =>
    let step := consumeToolToken t jti db
    let rest := consumeSeq jti ts step.2
    (step.1 :: rest.1, rest.2)

end ToolTokens

namespace Js

/-- JavaScript truthiness of an optional string: `undefined`, `null` and the
empty string are falsy. -/
def truthy : Option String → Bool
  | none => false
  | some s => !s.isEmpty

end Js

namespace TraceIntegrity

open StableJson Sha256

/-- A trace step as read by `traceIntegrity.ts`.  The `TraceStep`
declaration itself (`trace.ts`) is not among the sources; the fields are
modelled exactly as the integrity checker reads them, with an absent or
null field represented as `none`. -/
structure TraceStep where
  step_id : Option String
  type : String
  timestamp : String
  durationMs : Int
  data : JsonValue
  prev_step_hash : Option String
  step_hash : Option String

/-- The four integrity verdicts (`TraceIntegrityStatus`). -/
inductive TraceIntegrityStatus where
  | verified : TraceIntegrityStatus
  | compromised : TraceIntegrityStatus
  | unsigned : TraceIntegrityStatus
  | unverified : TraceIntegrityStatus
deriving DecidableEq

/-- `TraceIntegrityResult`: a verdict plus the failure list. -/
structure TraceIntegrityResult where
  status : TraceIntegrityStatus
  failures : List String
deriving DecidableEq

/-- `buildStepPayload`: the canonical record that is hashed for one step.
`step.step_id || null` maps both a missing and an empty `step_id` to null;
`step.prev_step_hash ?? null` maps only a missing value to null. -/
def buildStepPayload (step : TraceStep) : JsonValue :=
  .obj
    [ ("step_id", match step.step_id with
        | some s => if s.isEmpty then .null else .str s
        | none => .null)
    , ("prev_step_hash", match step.prev_step_hash with
        | some s => .str s
        | none => .null)
    , ("type", .str step.type)
    , ("timestamp", .str step.timestamp)
    , ("durationMs", .num step.durationMs)
    , ("data", step.data) ]

/-- `computeStepHash`: `formatSha256(sha256Json(payload))`. -/
def computeStepHash (sha : String → String) (step : TraceStep) : String :=
  formatSha256 (sha256Json sha (buildStepPayload step))

/-- The verification loop of `verifyTraceIntegrity`, accumulating failure
labels in step order.  A step without a (truthy) hash records
`step_i_missing_hash` and resets the expected predecessor to null; a hashed
step is checked against the expected predecessor link and against its
recomputed hash, and becomes the next expected predecessor. -/
def verifyLoop (sha : String → String) :
    List TraceStep → Nat → Option String → List String
  | [], _, _ => []
  | step :: rest, i, prevHash =>
    let expectedPrev := if i = 0 then none else prevHash
    if Js.truthy step.step_hash then
      (if step.prev_step_hash ≠ expectedPrev
        then ["step_" ++ toString i ++ "_prev_hash_mismatch"] else [])
      ++ (if some (computeStepHash sha step) ≠ step.step_hash
        then ["step_" ++ toString i ++ "_hash_mismatch"] else [])
      ++ verifyLoop sha rest (i + 1) step.step_hash
    else
      ("step_" ++ toString i ++ "_missing_hash") :: verifyLoop sha rest (i + 1) none

/-- `verifyTraceIntegrity` (`traceIntegrity.ts`) over a trace's step list
(`trace.steps || []`): `unverified` for zero steps, `unsigned` when no step
carries a truthy hash, otherwise `compromised` exactly when the loop found
failures and `verified` otherwise. -/
def verifyTraceIntegrity (sha : String → String) (steps : List TraceStep) :
    TraceIntegrityResult :=
  if steps.isEmpty then ⟨.unverified, ["no_steps"]⟩
  else if !(steps.any fun s => Js.truthy s.step_hash) then
    ⟨.unsigned, ["missing_step_hashes"]⟩
  else
    let failures := verifyLoop sha steps 0 none
    if failures.isEmpty then ⟨.verified, []⟩ else ⟨.compromised, failures⟩

/-- The specification-level chain predicate: every step carries a hash, the
first step's `prev_step_hash` is null, every later step links to its
predecessor's stored hash, and every stored hash equals the recomputed
hash. -/
def chainFrom (sha : String → String) :
    List TraceStep → Option String → Nat → Bool
  | [], _, _ => true
  | step :: rest, prev, i =>
    Js.truthy step.step_hash
    && step.prev_step_hash == (if i = 0 then none else prev)
    && step.step_hash == some (computeStepHash sha step)
    && chainFrom sha rest step.step_hash (i + 1)

end TraceIntegrity

namespace SignedEnvelope

open StableJson Sha256

/-- Telemetry key algorithms (`TelemetryKeyAlgorithm`). -/
inductive TelemetryKeyAlgorithm where
  | ed25519 : TelemetryKeyAlgorithm
  | ES256 : TelemetryKeyAlgorithm
deriving DecidableEq

/-- A registered telemetry key (`TelemetryKey`); the JWK is opaque to the
verifier, which only hands it to the crypto primitive. -/
structure TelemetryKey where
  alg : TelemetryKeyAlgorithm
  publicJwk : String
  keyId : Option String
  revokedAt : Option String

/-- Error codes of `SignedEnvelopeError` in `signedEnvelope.ts`. -/
inductive SignedEnvelopeError where
  | invalid_payload : SignedEnvelopeError
  | invalid_signature : SignedEnvelopeError
  | payload_hash_mismatch : SignedEnvelopeError
  | timestamp_skew : SignedEnvelopeError
  | unsupported_algorithm : SignedEnvelopeError
  | missing_key : SignedEnvelopeError
deriving DecidableEq

/-- The wire form (`SignedTelemetryEnvelope`).  `payload_type` is one of
trace/audit/cost/metrics/violations; the verifier never branches on it. -/
structure SignedTelemetryEnvelope where
  envelope_version : String
  adapter_id : String
  adapter_version : String
  issued_at : String
  execution_id : String
  trace_id : String
  payload_type : String
  payload : JsonValue
  payload_hash : String
  signature : String

/-- `buildSigningInput`: canonical JSON of the envelope with the `payload`
field omitted (the stable serialization sorts the keys). -/
def buildSigningInput (e : SignedTelemetryEnvelope) : String :=
  stableStringify (.obj
    [ ("envelope_version", .str e.envelope_version)
    , ("adapter_id", .str e.adapter_id)
    , ("adapter_version", .str e.adapter_version)
    , ("issued_at", .str e.issued_at)
    , ("execution_id", .str e.execution_id)
    , ("trace_id", .str e.trace_id)
    , ("payload_type", .str e.payload_type)
    , ("payload_hash", .str e.payload_hash) ])

/-- `verifySignedEnvelope` (`signedEnvelope.ts`), with the external
primitives as parameters: `sha` (SHA-256 hex), `parseDate`
(`new Date(s).getTime()`, `none` for NaN), `parseSig` (base64url decoding of
the signature), and `cryptoVerify` (`crypto.verify` for the key's
algorithm).  Checks run in source order: key present and not revoked, then
the recomputed payload hash against `payload_hash`, then the freshness
window, then the signature over the signing input.  The source's final
`unsupported_algorithm` branch is unreachable because the algorithm type has
exactly the two handled values. -/
def verifySignedEnvelope (sha : String → String)
    (parseDate : String → Option Int) (parseSig : String → String)
    (cryptoVerify : TelemetryKeyAlgorithm → String → String → String → Bool)
    (e : SignedTelemetryEnvelope) (key : Option TelemetryKey)
    (maxSkewSeconds : Int) (now : Int) :
    Except SignedEnvelopeError Unit :=
  match key with
  | none => .error .missing_key
  | some k =>
    if Js.truthy k.revokedAt then .error .missing_key
    else if formatSha256 (sha256Json sha e.payload) ≠ e.payload_hash then
      .error .payload_hash_mismatch
    else
      match parseDate e.issued_at with
      | none => .error .timestamp_skew
      | some issuedAt =>
        if maxSkewSeconds * 1000 < |now - issuedAt| then .error .timestamp_skew
        else
          let signingInput := buildSigningInput e
          let sigBytes := parseSig e.signature
          match k.alg with
          | .ed25519 =>
            if cryptoVerify .ed25519 k.publicJwk signingInput sigBytes then .ok ()
            else .error .invalid_signature
          | .ES256 =>
            if cryptoVerify .ES256 k.publicJwk signingInput sigBytes then .ok ()
            else .error .invalid_signature

end SignedEnvelope

namespace TenantAuth

/-- `TenantPermissions` from `tenantContext.ts`.  `tools` is always present
(extraction defaults it to the empty list); the other restrictions are
optional. -/
structure TenantPermissions where
  tools : List String
  maxTokens : Option Int
  budgetRemaining : Option Rat
  allowedModels : Option (List String)
  allowedSkills : Option (List String)

/-- `TenantContext` from `tenantContext.ts` (the raw JWT payload is not read
by the permission predicates and is omitted). -/
structure TenantContext where
  tenantId : String
  workspaceId : String
  userId : String
  agentRole : Option String
  permissions : TenantPermissions

/-- `canUseTool`: the wildcard `*` allows every tool, otherwise exact
membership in the `tools` list. -/
def canUseTool (ctx : TenantContext) (toolName : String) : Bool :=
  ctx.permissions.tools.contains "*" || ctx.permissions.tools.contains toolName

/-- `modelName.split('/')[0]`: the segment before the first slash (the
whole name when no slash occurs). -/
def providerOf (modelName : String) : String :=
  String.mk (modelName.toList.takeWhile fun c => c ≠ '/')

/-- `canUseModel`: unrestricted when `allowedModels` is absent or empty;
otherwise exact match or the provider wildcard `provider/*`. -/
def canUseModel (ctx : TenantContext) (modelName : String) : Bool :=
  match ctx.permissions.allowedModels with
  | none => true
  | some allowed =>
    if allowed.isEmpty then true
    else allowed.contains modelName || allowed.contains (providerOf modelName ++ "/*")

/-- `canUseSkill`: unrestricted when `allowedSkills` is absent or empty;
otherwise exact match or the wildcard `*`. -/
def canUseSkill (ctx : TenantContext) (skillName : String) : Bool :=
  match ctx.permissions.allowedSkills with
  | none => true
  | some allowed =>
    if allowed.isEmpty then true
    else allowed.contains skillName || allowed.contains "*"

/-- `hasBudget`: unrestricted when `budgetRemaining` is absent, else
`budgetRemaining >= estimatedCost`. -/
def hasBudget (ctx : TenantContext) (estimatedCost : Rat) : Bool :=
  match ctx.permissions.budgetRemaining with
  | none => true
  | some b => decide (estimatedCost ≤ b)

/-- `withinTokenLimit`: unrestricted when `maxTokens` is absent, else
`tokenCount <= maxTokens`. -/
def withinTokenLimit (ctx : TenantContext) (tokenCount : Int) : Bool :=
  match ctx.permissions.maxTokens with
  | none => true
  | some m => decide (tokenCount ≤ m)

end TenantAuth

namespace Policy

/-- Policy effects, shared by both engines. -/
inductive PolicyDecision where
  | allow : PolicyDecision
  | deny : PolicyDecision
  | require_approval : PolicyDecision
deriving DecidableEq

end Policy

namespace LegacyPolicy

open Policy

/-- The `if` block of a legacy YAML policy rule (`policyEngine.ts`, the
file-based engine). -/
structure RuleIf where
  environment : Option String
  tool : Option String
  adapter_risk_class : Option String
  skill_state : Option String
  tenant_id : Option String

/-- The `then` block: JavaScript-optional booleans, with an absent flag
falsy. -/
structure RuleThen where
  allow : Bool
  deny : Bool
  require_approval : Bool

/-- A legacy policy rule. -/
structure PolicyRule where
  policy_id : String
  if_ : Option RuleIf
  then_ : RuleThen

/-- The legacy engine's evaluation context (`PolicyContext`). -/
structure PolicyContext where
  environment : Option String
  tool : Option String
  adapter_risk_class : Option String
  skill_state : Option String
  tenant_id : Option String

/-- `matches` from the legacy engine: a rule without an `if` block matches
everything; each truthy condition must equal the context field. -/
def ruleMatches (rule : PolicyRule) (ctx : PolicyContext) : Bool :=
  match rule.if_ with
  | none => true
  | some c =>
    !(Js.truthy c.environment && c.environment != ctx.environment)
    && !(Js.truthy c.tool && c.tool != ctx.tool)
    && !(Js.truthy c.adapter_risk_class && c.adapter_risk_class != ctx.adapter_risk_class)
    && !(Js.truthy c.skill_state && c.skill_state != ctx.skill_state)
    && !(Js.truthy c.tenant_id && c.tenant_id != ctx.tenant_id)

/-- `decisionFromRule`: deny wins over require_approval over allow; a rule
with no effect flag set denies. -/
def decisionFromRule (rule : PolicyRule) : PolicyDecision :=
  if rule.then_.deny then .deny
  else if rule.then_.require_approval then .require_approval
  else if rule.then_.allow then .allow
  else .deny

/-- The legacy engine's result shape. -/
structure PolicyEvaluation where
  decision : PolicyDecision
  policy_id : Option String
  matched : List PolicyRule

/-- `evaluatePolicy` from the legacy engine, over the loaded rule list: the
first matching rule decides immediately; with no match the legacy default is
deny. -/
def evaluatePolicy : List PolicyRule → PolicyContext → PolicyEvaluation
  | [], _ => ⟨.deny, none, []⟩
  | r :: rs, ctx =>
    if ruleMatches r ctx then ⟨decisionFromRule r, some r.policy_id, [r]⟩
    else evaluatePolicy rs ctx

end LegacyPolicy

namespace PolicyEngine

open Policy

/-- Modelled from the spec: the nested `context` object of §4.4 — the same
field set is used for rule conditions (where an absent field is
unconstrained) and for the evaluation context (where an absent field is
unknown).  The implementation file `src/lib/governance/policyEngine.ts` of
the C4 tenant engine is absent from the sources; only its test suite is
present, so the engine is modelled from §4.4 of the specification. -/
structure ContextFields where
  external_network : Option Bool
  writes_files : Option Bool
  elevated_privileges : Option Bool
  package_manager : Option Bool
  targets : Option (List String)

/-- Modelled from the spec: the nested `provenance` object of §4.4. -/
structure ProvenanceFields where
  source : Option String
  publisher : Option String
  artifact_hash : Option String

/-- Modelled from the spec: a rule's scope (§4.4 step 1). -/
structure PolicyScope where
  tenant_id : String
  workspace_id : Option String
  environment : Option String

/-- Modelled from the spec: subject types of §3. -/
inductive SubjectType where
  | tool : SubjectType
  | adapter : SubjectType
  | skill : SubjectType
deriving DecidableEq

/-- Modelled from the spec: a rule's subject (§4.4 step 2). -/
structure PolicySubject where
  type : SubjectType
  name : Option String

/-- Modelled from the spec: the condition block of §4.4 step 3 — flat keys,
`capability`, and the nested `context` / `provenance` objects.  The `intent`
condition additionally appears in the engine's test suite. -/
structure PolicyConditions where
  tool : Option String
  adapter_risk_class : Option String
  skill_state : Option String
  risk_level : Option String
  min_cost : Option Rat
  max_cost : Option Rat
  capability : Option String
  intent : Option String
  context : Option ContextFields
  provenance : Option ProvenanceFields

/-- Modelled from the spec: a C4 policy rule (§3 Policy). -/
structure PolicyRule where
  policy_id : String
  scope : PolicyScope
  subject : PolicySubject
  conditions : Option PolicyConditions
  effect : PolicyDecision

/-- Modelled from the spec: the `PolicyContext` of §4.4.  `skill_id` is the
request's skill identifier carried into the enriched context (§3
ExecutionRequest). -/
structure PolicyContext where
  tenant_id : String
  workspace_id : Option String
  environment : Option String
  tool : Option String
  adapter_id : Option String
  adapter_risk_class : Option String
  skill_id : Option String
  skill_state : Option String
  risk_level : Option String
  estimated_cost : Option Rat
  requested_capabilities : Option (List String)
  intent : Option String
  context : Option ContextFields
  provenance : Option ProvenanceFields

/-- An equality condition on an optional context field: unconstrained when
unspecified, and satisfied only by a present, equal context value. -/
def optCondStr (cond : Option String) (ctxField : Option String) : Bool :=
  match cond with
  | none => true
  | some v => ctxField == some v

/-- As `optCondStr`, for boolean context flags. -/
def optCondBool (cond : Option Bool) (ctxField : Option Bool) : Bool :=
  match cond with
  | none => true
  | some v => ctxField == some v

/-- As `optCondStr`, for string-list fields. -/
def optCondList (cond : Option (List String)) (ctxField : Option (List String)) : Bool :=
  match cond with
  | none => true
  | some v => ctxField == some v

/-- Modelled from the spec: scope filter (§4.4 step 1) — the rule's
`tenant_id` must equal the context's; `workspace_id` and `environment` must
match if specified. -/
def scopeMatches (s : PolicyScope) (ctx : PolicyContext) : Bool :=
  s.tenant_id == ctx.tenant_id
  && (match s.workspace_id with
      | none => true
      | some w => ctx.workspace_id == some w)
  && (match s.environment with
      | none => true
      | some env => ctx.environment == some env)

/-- Modelled from the spec: subject filter (§4.4 step 2) — `name`, if
specified, must equal the context field selected by the subject type. -/
def subjectMatches (sub : PolicySubject) (ctx : PolicyContext) : Bool :=
  match sub.name with
  | none => true
  | some n =>
    match sub.type with
    | .tool => ctx.tool == some n
    | .adapter => ctx.adapter_id == some n
    | .skill => ctx.skill_id == some n

/-- Modelled from the spec: each specified `context.*` sub-field must equal
the corresponding context sub-field; a missing context object or sub-field
is unknown and never matches. -/
def ctxCondSat (c : ContextFields) (ctxc : Option ContextFields) : Bool :=
  optCondBool c.external_network (ctxc.bind fun g => g.external_network)
  && optCondBool c.writes_files (ctxc.bind fun g => g.writes_files)
  && optCondBool c.elevated_privileges (ctxc.bind fun g => g.elevated_privileges)
  && optCondBool c.package_manager (ctxc.bind fun g => g.package_manager)
  && optCondList c.targets (ctxc.bind fun g => g.targets)

/-- Modelled from the spec: each specified `provenance.*` sub-field must
equal the corresponding context sub-field. -/
def provCondSat (p : ProvenanceFields) (ctxp : Option ProvenanceFields) : Bool :=
  optCondStr p.source (ctxp.bind fun g => g.source)
  && optCondStr p.publisher (ctxp.bind fun g => g.publisher)
  && optCondStr p.artifact_hash (ctxp.bind fun g => g.artifact_hash)

/-- Modelled from the spec: condition filter (§4.4 step 3).  Every specified
condition must be satisfied; missing context fields are unknown and never
match any condition.  `capability` matches when it is an element of
`requested_capabilities`; `min_cost`/`max_cost` bound `estimated_cost`. -/
def condsSat (conds : Option PolicyConditions) (ctx : PolicyContext) : Bool :=
  match conds with
  | none => true
  | some c =>
    optCondStr c.tool ctx.tool
    && optCondStr c.adapter_risk_class ctx.adapter_risk_class
    && optCondStr c.skill_state ctx.skill_state
    && optCondStr c.risk_level ctx.risk_level
    && (match c.min_cost with
        | none => true
        | some m => match ctx.estimated_cost with
          | some cost => decide (m ≤ cost)
          | none => false)
    && (match c.max_cost with
        | none => true
        | some m => match ctx.estimated_cost with
          | some cost => decide (cost ≤ m)
          | none => false)
    && (match c.capability with
        | none => true
        | some cap => match ctx.requested_capabilities with
          | some l => l.contains cap
          | none => false)
    && optCondStr c.intent ctx.intent
    && (match c.context with
        | none => true
        | some cf => ctxCondSat cf ctx.context)
    && (match c.provenance with
        | none => true
        | some pf => provCondSat pf ctx.provenance)

/-- Modelled from the spec: a rule matches when it passes the scope filter,
the subject filter and the condition filter, in that order (§4.4). -/
def ruleMatches (r : PolicyRule) (ctx : PolicyContext) : Bool :=
  scopeMatches r.scope ctx && subjectMatches r.subject ctx
    && condsSat r.conditions ctx

/-- Effect precedence: `deny` > `require_approval` > `allow` (§4.4). -/
def severity : PolicyDecision → Nat
  | .allow => 0
  | .require_approval => 1
  | .deny => 2

/-- Highest-precedence combination of two effects. -/
def maxDecision (a b : PolicyDecision) : PolicyDecision :=
  if severity b ≤ severity a then a else b

/-- Modelled from the spec: the C4 evaluation result
`\x7bdecision, matched_policies[]\x7d`. -/
structure PolicyEvaluation where
  decision : PolicyDecision
  matched_policies : List String

/-- Modelled from the spec: C4 evaluation (§4.4) — collect every matching
rule, return all of them in `matched_policies`, and combine their effects by
highest precedence; with no match the default is `allow`. -/
def evaluatePolicy (rules : List PolicyRule) (ctx : PolicyContext) :
    PolicyEvaluation :=
  let matched := rules.filter fun r => ruleMatches r ctx
  ⟨(matched.map fun r => r.effect).foldl maxDecision .allow,
   matched.map fun r => r.policy_id⟩

end PolicyEngine

namespace StableJson

/-- An association list has pairwise-distinct keys (JavaScript objects
cannot carry duplicate property names). -/
def keysNodup (fs : List (String × JsonValue)) : Bool :=
  decide ((fs.map Prod.fst).Nodup)

mutual
/-- Structural equality of JSON values: atoms must agree, arrays must agree
elementwise in order, and objects must carry the same duplicate-free key set
with structurally equal values — irrespective of key insertion order. -/
def structEqB : JsonValue → JsonValue → Bool
  | .null, .null => true
  | .bool a, .bool b => a == b
  | .num a, .num b => a == b
  | .str a, .str b => a == b
  | .arr xs, .arr ys => structEqArrB xs ys
  | .obj fs, .obj gs =>
    keysNodup fs && keysNodup gs && structEqObjB fs gs
      && gs.all fun q => (fs.lookup q.1).isSome
  | _, _ => false

/-- Pointwise structural equality of two value lists. -/
def structEqArrB : List JsonValue → List JsonValue → Bool
  | [], [] => true
  | x :: xs, y :: ys => structEqB x y && structEqArrB xs ys
  | _, _ => false

/-- Every field of the first object resolves, by key, to a structurally
equal value in the second. -/
def structEqObjB : List (String × JsonValue) → List (String × JsonValue) → Bool
  | [], _ => true
  | (k, v) :: fs, gs =>
    (match gs.lookup k with
     | some w => structEqB v w
     | none => false)
    && structEqObjB fs gs
end

mutual
/-- Every object in the value has its fields in the serialization key order
`fieldLe`: array-index keys ascending numerically ahead of the remaining
keys in UTF-16 lexicographic order. -/
def objKeysSorted : JsonValue → Bool
  | .null => true
  | .bool _ => true
  | .num _ => true
  | .str _ => true
  | .arr xs => objKeysSortedList xs
  | .obj fs => decide (List.Sorted fieldLe fs) && objKeysSortedFields fs

/-- `objKeysSorted` over array elements. -/
def objKeysSortedList : List JsonValue → Bool
  | [] => true
  | x :: xs => objKeysSorted x && objKeysSortedList xs

/-- `objKeysSorted` over object field values. -/
def objKeysSortedFields : List (String × JsonValue) → Bool
  | [] => true
  | (_, v) :: fs => objKeysSorted v && objKeysSortedFields fs
end

/-- JSON insignificant-whitespace characters (RFC 8259): space, tab, line
feed, carriage return. -/
def isWsChar (c : Char) : Bool :=
  c = ' ' || c = Char.ofNat 9 || c = Char.ofNat 10 || c = Char.ofNat 13

mutual
/-- No string or object key anywhere in the value contains a whitespace
character. -/
def noWsStrings : JsonValue → Bool
  | .null => true
  | .bool _ => true
  | .num _ => true
  | .str s => s.toList.all fun c => !isWsChar c
  | .arr xs => noWsStringsList xs
  | .obj fs => noWsStringsFields fs

/-- `noWsStrings` over array elements. -/
def noWsStringsList : List JsonValue → Bool
  | [] => true
  | x :: xs => noWsStrings x && noWsStringsList xs

/-- `noWsStrings` over object fields, keys included. -/
def noWsStringsFields : List (String × JsonValue) → Bool
  | [] => true
  | (k, v) :: fs =>
    (k.toList.all fun c => !isWsChar c) && noWsStrings v && noWsStringsFields fs
end

end StableJson

namespace StableJson

/-- Strict key order on object fields: key-ordered with distinct keys. -/
def fieldLt (a b : String × JsonValue) : Prop := fieldLe a b ∧ a.1 ≠ b.1

end StableJson

namespace PolicyEngine

/-- The rule specifies at least one condition whose corresponding context
field (or sub-field) is absent — the *unknown* situation of §4.4. -/
def condUnknown (r : PolicyRule) (ctx : PolicyContext) : Bool :=
  match r.conditions with
  | none => false
  | some c =>
    (c.tool.isSome && ctx.tool.isNone)
    || (c.adapter_risk_class.isSome && ctx.adapter_risk_class.isNone)
    || (c.skill_state.isSome && ctx.skill_state.isNone)
    || (c.risk_level.isSome && ctx.risk_level.isNone)
    || ((c.min_cost.isSome || c.max_cost.isSome) && ctx.estimated_cost.isNone)
    || (c.capability.isSome && ctx.requested_capabilities.isNone)
    || (c.intent.isSome && ctx.intent.isNone)
    || (match c.context with
        | none => false
        | some cf =>
          (cf.external_network.isSome && (ctx.context.bind fun g => g.external_network).isNone)
          || (cf.writes_files.isSome && (ctx.context.bind fun g => g.writes_files).isNone)
          || (cf.elevated_privileges.isSome && (ctx.context.bind fun g => g.elevated_privileges).isNone)
          || (cf.package_manager.isSome && (ctx.context.bind fun g => g.package_manager).isNone)
          || (cf.targets.isSome && (ctx.context.bind fun g => g.targets).isNone))
    || (match c.provenance with
        | none => false
        | some pf =>
          (pf.source.isSome && (ctx.provenance.bind fun g => g.source).isNone)
          || (pf.publisher.isSome && (ctx.provenance.bind fun g => g.publisher).isNone)
          || (pf.artifact_hash.isSome && (ctx.provenance.bind fun g => g.artifact_hash).isNone))

/-- A condition block with nothing specified. -/
def noConditions : PolicyConditions :=
  ⟨none, none, none, none, none, none, none, none, none, none⟩

/-- Example evaluation context: tenant `t1` requesting `shell.exec` through
adapter `openclaw` for the tool `filesystem.write`, with no declared
execution context. -/
def exCtx : PolicyContext :=
  { tenant_id := "t1"
    workspace_id := none
    environment := none
    tool := some "filesystem.write"
    adapter_id := some "openclaw"
    adapter_risk_class := none
    skill_id := none
    skill_state := none
    risk_level := none
    estimated_cost := none
    requested_capabilities := some ["shell.exec"]
    intent := none
    context := none
    provenance := none }

/-- Example rule: allow the tool `filesystem.write` for tenant `t1`. -/
def exRuleAllow : PolicyRule :=
  { policy_id := "allow_fs_write"
    scope := ⟨"t1", none, none⟩
    subject := ⟨.tool, some "filesystem.write"⟩
    conditions := none
    effect := .allow }

/-- Example rule: deny any adapter requesting the `shell.exec` capability. -/
def exRuleDeny : PolicyRule :=
  { policy_id := "deny_shell_exec"
    scope := ⟨"t1", none, none⟩
    subject := ⟨.adapter, none⟩
    conditions := some { noConditions with capability := some "shell.exec" }
    effect := .deny }

/-- Example rule conditioned on `context.external_network: true`. -/
def exRuleNetwork : PolicyRule :=
  { policy_id := "deny_shell_exec_network"
    scope := ⟨"t1", none, none⟩
    subject := ⟨.adapter, none⟩
    conditions := some
      { noConditions with
          capability := some "shell.exec"
          context := some ⟨some true, none, none, none, none⟩ }
    effect := .deny }

/-- Example rule scoped to a different tenant: never matches `exCtx`. -/
def exRuleOtherTenant : PolicyRule :=
  { exRuleAllow with policy_id := "other_tenant", scope := ⟨"t2", none, none⟩ }

end PolicyEngine

namespace ToolTokens

/-- Example signing primitive for concrete evaluations. -/
def cxSign : String → ToolTokenPayload → String := fun _ _ => "sig"

/-- Example tool-token payload: expires at time 10. -/
def cxPayload : ToolTokenPayload :=
  { typ := "tool_auth"
    tenant_id := "t1"
    workspace_id := "w1"
    adapter_id := "a1"
    execution_id := "e1"
    tool := "fs.read"
    scope := .null
    scope_hash := "sha256:x"
    iat := 0
    exp := 10
    jti := "jti-1" }

/-- Example signed token, well-signed under `cxSign` and any secret. -/
def cxToken : SignedToolToken := ⟨cxPayload, "sig"⟩

/-- Example stored row for `jti-1`, not yet consumed. -/
def cxRow : ToolTokenRow :=
  { jti := "jti-1"
    tenant_id := "t1"
    adapter_id := "a1"
    execution_id := "e1"
    tool := "fs.read"
    scope_hash := "sha256:x"
    issued_at := 0
    expires_at := 10
    used_at := none }

end ToolTokens

namespace SignedEnvelope

open StableJson Sha256

/-- Example hash primitive: the identity, which is injective. -/
def envSha : String → String := id

/-- Example timestamp parser: every string parses to time 0. -/
def envParseDate : String → Option Int := fun _ => some 0

/-- Example signature decoder: the identity. -/
def envParseSig : String → String := id

/-- Example crypto primitive: accepts every signature. -/
def envCryptoVerify : TelemetryKeyAlgorithm → String → String → String → Bool :=
  fun _ _ _ _ => true

/-- Example registered telemetry key, not revoked. -/
def envKey : TelemetryKey := ⟨.ed25519, "jwk", none, none⟩

/-- Example envelope whose `payload_hash` is the correctly recomputed hash
of its payload. -/
def exEnvelope : SignedTelemetryEnvelope :=
  { envelope_version := "v1"
    adapter_id := "adapter-1"
    adapter_version := "0.4.1"
    issued_at := "now"
    execution_id := "exec-1"
    trace_id := "trace-1"
    payload_type := "trace"
    payload := .null
    payload_hash := formatSha256 (sha256Json envSha .null)
    signature := "sig" }

end SignedEnvelope

namespace TenantAuth

/-- Example context whose tool list holds only the namespace pattern
`tickets:*` and whose model list holds only the bare `*`. -/
def cxCtx : TenantContext :=
  { tenantId := "tenant-1"
    workspaceId := "workspace-1"
    userId := "user-1"
    agentRole := none
    permissions :=
      { tools := ["tickets:*"]
        maxTokens := none
        budgetRemaining := none
        allowedModels := some ["*"]
        allowedSkills := none } }

/-- Example context with the full tool wildcard and a provider-wildcard
model list. -/
def wildcardCtx : TenantContext :=
  { tenantId := "tenant-1"
    workspaceId := "workspace-1"
    userId := "user-1"
    agentRole := none
    permissions :=
      { tools := ["*"]
        maxTokens := some 4000
        budgetRemaining := some 50
        allowedModels := some ["openai/*"]
        allowedSkills := some ["summarize"] } }

end TenantAuth

namespace TraceIntegrity

/-- Example hash primitive for concrete trace evaluations. -/
def exSha : String → String := fun _ => "h"

/-- Example step whose stored hash is its recomputed hash under `exSha`. -/
def exStep : TraceStep :=
  { step_id := some "step-1"
    type := "tool_call"
    timestamp := "t0"
    durationMs := 1
    data := .null
    prev_step_hash := none
    step_hash := some "sha256:h" }

/-- Example step with a stored hash that does not recompute. -/
def exBadStep : TraceStep := { exStep with step_hash := some "sha256:bad" }

end TraceIntegrity

namespace StableJson

/-- Example value: object keys inserted in the order `b`, `a`, with a
nested object inserted in the order `y`, `x`. -/
def exJsonA : JsonValue :=
  .obj [("b", .num 1), ("a", .obj [("y", .null), ("x", .bool true)])]

/-- The same JSON value as `exJsonA` with every object's keys inserted in
the opposite order. -/
def exJsonB : JsonValue :=
  .obj [("a", .obj [("x", .bool true), ("y", .null)]), ("b", .num 1)]

end StableJson

/-!
## Theorems

The claim theorems and their supporting lemmas.
-/

namespace LegacyPolicy

/-- The legacy file-based engine defaults to deny when nothing matches —
the default the specification explicitly does not adopt for the C4 tenant
engine. -/
theorem legacy_no_match_deny (rules : List PolicyRule) (ctx : PolicyContext)
    (h : ∀ r ∈ rules, ruleMatches r ctx = false) :
    (evaluatePolicy rules ctx).decision = .deny := by
  induction rules with
  | nil => rfl
  | cons r rs ih =>
    have hr := h r (List.mem_cons_self r rs)
    simp only [evaluatePolicy, hr, Bool.false_eq_true, if_false]
    exact ih fun x hx => h x (List.mem_cons_of_mem r hx)

end LegacyPolicy

namespace PolicyEngine

open Policy

lemma severity_le_maxDecision_left (a b : PolicyDecision) :
    severity a ≤ severity (maxDecision a b) := by
  unfold maxDecision
  split
  · exact le_rfl
  · omega

lemma severity_le_maxDecision_right (a b : PolicyDecision) :
    severity b ≤ severity (maxDecision a b) := by
  unfold maxDecision
  split
  · assumption
  · exact le_rfl

lemma foldl_maxDecision_init_le :
    ∀ (l : List PolicyDecision) (a : PolicyDecision),
      severity a ≤ severity (l.foldl maxDecision a) := by
  intro l
  induction l with
  | nil => intro a; exact le_rfl
  | cons b l ih =>
    intro a
    rw [List.foldl_cons]
    exact le_trans (severity_le_maxDecision_left a b) (ih (maxDecision a b))

lemma foldl_maxDecision_mem_le :
    ∀ (l : List PolicyDecision) (a r : PolicyDecision), r ∈ l →
      severity r ≤ severity (l.foldl maxDecision a) := by
  intro l
  induction l with
  | nil => intro a r hr; cases hr
  | cons b l ih =>
    intro a r hr
    rw [List.foldl_cons]
    rcases List.mem_cons.mp hr with rfl | hmem
    · exact le_trans (severity_le_maxDecision_right a r)
        (foldl_maxDecision_init_le l _)
    · exact ih _ r hmem

lemma foldl_maxDecision_eq_or_mem :
    ∀ (l : List PolicyDecision) (a : PolicyDecision),
      l.foldl maxDecision a = a ∨ l.foldl maxDecision a ∈ l := by
  intro l
  induction l with
  | nil => intro a; exact Or.inl rfl
  | cons b l ih =>
    intro a
    rw [List.foldl_cons]
    rcases ih (maxDecision a b) with h | h
    · rw [h]
      unfold maxDecision
      split
      · exact Or.inl rfl
      · exact Or.inr (List.mem_cons_self _ _)
    · exact Or.inr (List.mem_cons_of_mem _ h)

lemma eq_allow_of_severity_le_zero (d : PolicyDecision)
    (h : severity d ≤ 0) : d = .allow := by
  cases d <;> simp [severity] at h ⊢

lemma eq_deny_of_two_le_severity (d : PolicyDecision)
    (h : 2 ≤ severity d) : d = .deny := by
  cases d <;> simp [severity] at h ⊢

/-- C1: with no matching rule, the C4 engine's evaluation decision is
`allow` — the no-match default is allow, not deny. -/
theorem evaluatePolicy_no_match_allow (rules : List PolicyRule)
    (ctx : PolicyContext) (h : ∀ r ∈ rules, ruleMatches r ctx = false) :
    (evaluatePolicy rules ctx).decision = .allow := by
  have hf : (rules.filter fun r => ruleMatches r ctx) = [] := by
    rw [List.filter_eq_nil_iff]
    intro r hr
    simp [h r hr]
  simp [evaluatePolicy, hf]

/-- C1 witness: a loaded rule scoped to another tenant does not match, and
the decision defaults to allow. -/
theorem evaluatePolicy_no_match_allow_witness :
    (evaluatePolicy [exRuleOtherTenant] exCtx).decision = .allow :=
  evaluatePolicy_no_match_allow [exRuleOtherTenant] exCtx (by decide)

/-- C2: when more than one rule matches, evaluation returns every matching
rule in `matched_policies` and the decision is the highest-precedence
matched effect (`deny` > `require_approval` > `allow`); in particular any
matching deny rule forces `deny` regardless of rule order. -/
theorem evaluatePolicy_precedence (rules : List PolicyRule)
    (ctx : PolicyContext)
    (h2 : 2 ≤ (rules.filter fun r => ruleMatches r ctx).length) :
    ((evaluatePolicy rules ctx).matched_policies
        = (rules.filter fun r => ruleMatches r ctx).map fun r => r.policy_id)
    ∧ (∃ r ∈ rules.filter fun r => ruleMatches r ctx,
        (evaluatePolicy rules ctx).decision = r.effect)
    ∧ (∀ r ∈ rules.filter fun r => ruleMatches r ctx,
        severity r.effect ≤ severity (evaluatePolicy rules ctx).decision)
    ∧ ((∃ r ∈ rules.filter fun r => ruleMatches r ctx, r.effect = .deny) →
        (evaluatePolicy rules ctx).decision = .deny) := by
  set m := rules.filter fun r => ruleMatches r ctx with hm
  have hmne : m ≠ [] := by
    intro hnil
    rw [hnil] at h2
    simp at h2
  have hdec : (evaluatePolicy rules ctx).decision
      = (m.map fun r => r.effect).foldl maxDecision .allow := rfl
  have hub : ∀ r ∈ m, severity r.effect
      ≤ severity (evaluatePolicy rules ctx).decision := by
    intro r hr
    rw [hdec]
    exact foldl_maxDecision_mem_le _ _ _ (List.mem_map.mpr ⟨r, hr, rfl⟩)
  refine ⟨rfl, ?_, hub, ?_⟩
  · rcases foldl_maxDecision_eq_or_mem (m.map fun r => r.effect) .allow
      with h | h
    · obtain ⟨r0, hr0⟩ := List.exists_mem_of_ne_nil m hmne
      refine ⟨r0, hr0, ?_⟩
      have hle := hub r0 hr0
      rw [hdec, h] at hle ⊢
      exact (eq_allow_of_severity_le_zero r0.effect hle).symm
    · obtain ⟨r, hr, hre⟩ := List.mem_map.mp h
      exact ⟨r, hr, by rw [hdec, hre]⟩
  · rintro ⟨r, hr, hrd⟩
    have := hub r hr
    rw [hrd] at this
    exact eq_deny_of_two_le_severity _ this

/-- C2 witness: an allow rule and a deny rule both match; both are
reported and deny wins. -/
theorem evaluatePolicy_precedence_witness :
    ((evaluatePolicy [exRuleAllow, exRuleDeny] exCtx).matched_policies
        = ["allow_fs_write", "deny_shell_exec"])
    ∧ (evaluatePolicy [exRuleAllow, exRuleDeny] exCtx).decision = .deny := by
  have h := evaluatePolicy_precedence [exRuleAllow, exRuleDeny] exCtx (by decide)
  exact ⟨by rw [h.1]; decide, h.2.2.2 (by decide)⟩

end PolicyEngine

namespace PolicyEngine

lemma optCondStr_false_of_unknown {cond f : Option String}
    (hc : cond.isSome = true) (hf : f.isNone = true) :
    optCondStr cond f = false := by
  cases cond with
  | none => simp at hc
  | some v =>
    cases f with
    | none => rfl
    | some w => simp at hf

lemma optCondBool_false_of_unknown {cond f : Option Bool}
    (hc : cond.isSome = true) (hf : f.isNone = true) :
    optCondBool cond f = false := by
  cases cond with
  | none => simp at hc
  | some v =>
    cases f with
    | none => rfl
    | some w => simp at hf

lemma optCondList_false_of_unknown {cond f : Option (List String)}
    (hc : cond.isSome = true) (hf : f.isNone = true) :
    optCondList cond f = false := by
  cases cond with
  | none => simp at hc
  | some v =>
    cases f with
    | none => rfl
    | some w => simp at hf

/-- C3: a rule that specifies a condition on a field that is absent from
the evaluation context — a flat key, `capability`, a cost bound, or a
`context.*`/`provenance.*` sub-field — never matches that context: unknown
never satisfies a specified condition. -/
theorem ruleMatches_unknown_no_match (r : PolicyRule) (ctx : PolicyContext)
    (h : condUnknown r ctx = true) : ruleMatches r ctx = false := by
  rcases hc : r.conditions with _ | c
  · unfold condUnknown at h
    rw [hc] at h
    exact absurd h (by simp)
  · suffices hs : condsSat (some c) ctx = false by
      unfold ruleMatches
      rw [hc, hs, Bool.and_false]
    unfold condUnknown at h
    rw [hc] at h
    simp only [condsSat]
    simp only [Bool.or_eq_true, Bool.and_eq_true] at h
    rcases h with (((((((⟨h1, h2⟩ | ⟨h1, h2⟩) | ⟨h1, h2⟩) | ⟨h1, h2⟩)
      | ⟨h1, h2⟩) | ⟨h1, h2⟩) | ⟨h1, h2⟩) | hctx) | hprov
    · rw [optCondStr_false_of_unknown h1 h2]
      simp
    · rw [optCondStr_false_of_unknown h1 h2]
      simp
    · rw [optCondStr_false_of_unknown h1 h2]
      simp
    · rw [optCondStr_false_of_unknown h1 h2]
      simp
    · rcases h1 with hmin | hmax
      · obtain ⟨mv, hmv⟩ := Option.isSome_iff_exists.mp hmin
        rw [hmv, Option.isNone_iff_eq_none.mp h2]
        simp
      · obtain ⟨mv, hmv⟩ := Option.isSome_iff_exists.mp hmax
        rw [hmv, Option.isNone_iff_eq_none.mp h2]
        simp
    · obtain ⟨cap, hcap⟩ := Option.isSome_iff_exists.mp h1
      rw [hcap, Option.isNone_iff_eq_none.mp h2]
      simp
    · rw [optCondStr_false_of_unknown h1 h2]
      simp
    · rcases hcf : c.context with _ | cf
      · rw [hcf] at hctx
        exact absurd hctx (by simp)
      · rw [hcf] at hctx
        simp only [Bool.or_eq_true, Bool.and_eq_true] at hctx
        suffices hcs : ctxCondSat cf ctx.context = false by
          simp only [hcf, hcs]
          simp
        unfold ctxCondSat
        rcases hctx with (((⟨h1, h2⟩ | ⟨h1, h2⟩) | ⟨h1, h2⟩) | ⟨h1, h2⟩) | ⟨h1, h2⟩
        · rw [optCondBool_false_of_unknown h1 h2]; simp
        · rw [optCondBool_false_of_unknown h1 h2]; simp
        · rw [optCondBool_false_of_unknown h1 h2]; simp
        · rw [optCondBool_false_of_unknown h1 h2]; simp
        · rw [optCondList_false_of_unknown h1 h2]; simp
    · rcases hpf : c.provenance with _ | pf
      · rw [hpf] at hprov
        exact absurd hprov (by simp)
      · rw [hpf] at hprov
        simp only [Bool.or_eq_true, Bool.and_eq_true] at hprov
        suffices hps : provCondSat pf ctx.provenance = false by
          simp only [hpf, hps]
          simp
        unfold provCondSat
        rcases hprov with (⟨h1, h2⟩ | ⟨h1, h2⟩) | ⟨h1, h2⟩
        · rw [optCondStr_false_of_unknown h1 h2]; simp
        · rw [optCondStr_false_of_unknown h1 h2]; simp
        · rw [optCondStr_false_of_unknown h1 h2]; simp

/-- C3 witness: the `context.external_network: true` rule does not match a
context that omits `context`. -/
theorem ruleMatches_unknown_no_match_witness :
    ruleMatches exRuleNetwork exCtx = false :=
  ruleMatches_unknown_no_match exRuleNetwork exCtx (by decide)

end PolicyEngine

namespace ToolTokens

lemma consume_no_hit (t jti : String) (db : List ToolTokenRow)
    (h : ∀ r ∈ db, consumeHit jti r = false) :
    consumeToolToken t jti db = (false, db) := by
  have hf : db.filter (consumeHit jti) = [] :=
    List.filter_eq_nil_iff.mpr fun r hr => by simp [h r hr]
  have hmap : (db.map fun r =>
      if consumeHit jti r then { r with used_at := some t } else r) = db := by
    have hcongr : ∀ r ∈ db,
        (if consumeHit jti r then { r with used_at := some t } else r) = r :=
      fun r hr => by simp [h r hr]
    rw [List.map_congr_left hcongr]
    exact List.map_id db
  simp [consumeToolToken, hf, hmap]

lemma consumeSeq_all_false (jti : String) (ts : List String)
    (db : List ToolTokenRow) (h : ∀ r ∈ db, consumeHit jti r = false) :
    consumeSeq jti ts db = (List.replicate ts.length false, db) := by
  induction ts with
  | nil => rfl
  | cons t ts ih =>
    simp [consumeSeq, consume_no_hit t jti db h, ih, List.replicate_succ]

/-- C4: for an issued, still-unconsumed token (its row is present with
`used_at` null), the first consume returns true and stamps `used_at` with
the supplied timestamp, and every later consume in any subsequent sequence
returns false — over the whole sequence exactly one call returns true.  In
the embedding the consume operation is the single conditional update
`UPDATE … SET used_at … WHERE jti = ? AND used_at IS NULL` itself, not a
separate read followed by a write. -/
theorem consumeToolToken_single_use (now jti : String) (later : List String)
    (db : List ToolTokenRow)
    (hex : ∃ r ∈ db, r.jti = jti ∧ r.used_at = none)
    (hunused : ∀ r ∈ db, r.jti = jti → r.used_at = none) :
    ((consumeSeq jti (now :: later) db).1
        = true :: List.replicate later.length false)
    ∧ (consumeSeq jti (now :: later) db).1.count true = 1
    ∧ (∀ r ∈ (consumeToolToken now jti db).2, r.jti = jti →
        r.used_at = some now) := by
  obtain ⟨r0, hr0, hjti0, hun0⟩ := hex
  have hhit0 : consumeHit jti r0 = true := by simp [consumeHit, hjti0, hun0]
  have hfne : db.filter (consumeHit jti) ≠ [] := by
    intro hnil
    have hmem := List.mem_filter.mpr ⟨hr0, hhit0⟩
    rw [hnil] at hmem
    cases hmem
  have hfst : (consumeToolToken now jti db).1 = true := by
    have hlen : (db.filter (consumeHit jti)).length ≠ 0 := by
      simpa [List.length_eq_zero] using hfne
    simp [consumeToolToken, hlen]
  have hdb1 : (consumeToolToken now jti db).2 = db.map fun r =>
      if consumeHit jti r then { r with used_at := some now } else r := rfl
  have hall : ∀ r ∈ (consumeToolToken now jti db).2, r.jti = jti →
      r.used_at = some now := by
    intro r hr hj
    rw [hdb1] at hr
    obtain ⟨s0, hs, rfl⟩ := List.mem_map.mp hr
    by_cases hh : consumeHit jti s0
    · simp [hh]
    · simp only [hh, Bool.false_eq_true, if_false] at hj ⊢
      have := hunused s0 hs hj
      simp [consumeHit, hj, this] at hh
  have hnohit : ∀ r ∈ (consumeToolToken now jti db).2,
      consumeHit jti r = false := by
    intro r hr
    by_cases hj : r.jti = jti
    · have := hall r hr hj
      simp [consumeHit, this]
    · simp [consumeHit, hj]
  have hseq := consumeSeq_all_false jti later _ hnohit
  have hshape : (consumeSeq jti (now :: later) db).1
      = true :: List.replicate later.length false := by
    show ((consumeToolToken now jti db).1
        :: (consumeSeq jti later (consumeToolToken now jti db).2).1, _).1 = _
    rw [hfst, hseq]
  refine ⟨hshape, ?_, hall⟩
  rw [hshape]
  simp [List.count_cons, List.count_replicate]

/-- C4 witness: a store holding the freshly issued row for `jti-1`; three
consume calls return true, false, false. -/
theorem consumeToolToken_single_use_witness :
    (consumeSeq "jti-1" ["t1", "t2", "t3"] [cxRow]).1 = [true, false, false]
    ∧ ∀ r ∈ (consumeToolToken "t1" "jti-1" [cxRow]).2, r.jti = "jti-1" →
        r.used_at = some "t1" := by
  have h := consumeToolToken_single_use "t1" "jti-1" ["t2", "t3"] [cxRow]
    ⟨cxRow, by decide, by decide, by decide⟩ (by decide)
  exact ⟨h.1, h.2.2⟩

/-- C10: consuming a `jti` for which no row was ever inserted returns
plain false and leaves the store untouched — exactly the result an
already-consumed token produces, with no distinct error signal. -/
theorem consumeToolToken_unknown_jti (now jti : String)
    (db : List ToolTokenRow) (h : ∀ r ∈ db, r.jti ≠ jti) :
    consumeToolToken now jti db = (false, db)
    ∧ ∀ db2 : List ToolTokenRow,
        (∀ r ∈ db2, r.jti = jti → r.used_at ≠ none) →
        (consumeToolToken now jti db2).1 = false := by
  constructor
  · apply consume_no_hit
    intro r hr
    simp [consumeHit, h r hr]
  · intro db2 h2
    have hstep := consume_no_hit now jti db2 ?_
    · rw [hstep]
    intro r hr
    by_cases hj : r.jti = jti
    · have := h2 r hr hj
      simp [consumeHit, hj, Option.isNone_iff_eq_none, Option.isSome_iff_ne_none, this]
    · simp [consumeHit, hj]

/-- C10 witness: consuming `jti-1` against an empty store returns false,
matching the result against a store whose `jti-1` row is already used. -/
theorem consumeToolToken_unknown_jti_witness :
    consumeToolToken "t1" "jti-1" [] = (false, [])
    ∧ (consumeToolToken "t1" "jti-1"
        [{ cxRow with used_at := some "t0" }]).1 = false := by
  have h := consumeToolToken_unknown_jti "t1" "jti-1" [] (by decide)
  exact ⟨h.1, h.2 [{ cxRow with used_at := some "t0" }] (by decide)⟩

end ToolTokens

namespace ToolTokens

/-- C5 counterexample: a well-signed, unexpired token verifies successfully
even though the store holds no row for its `jti` — `verifyToolToken`
performs no lookup of the stored row, contradicting the claimed
signature + expiry + row-lookup triple. -/
theorem verifyToolToken_no_row_counterexample :
    verifyToolToken cxSign (some "secret") 5 cxToken = .ok cxPayload
    ∧ ([] : List ToolTokenRow).filter (fun r => r.jti == cxPayload.jti) = [] :=
  ⟨rfl, rfl⟩

/-- C5 amended: verification checks the signature and the expiry and
returns the full claim set; an expired token fails verify even if never
consumed, and an ill-signed token fails; no store is consulted (the
function takes no store argument — see the counterexample). -/
theorem verifyToolToken_sig_expiry (signFn : String → ToolTokenPayload → String)
    (secret : String) (now : Int) (tok : SignedToolToken)
    (hsig : tok.sig = signFn secret tok.payload) :
    (verifyToolToken signFn (some secret) now tok = .ok tok.payload
        ↔ now < tok.payload.exp)
    ∧ (tok.payload.exp ≤ now →
        verifyToolToken signFn (some secret) now tok = .error .invalid_token)
    ∧ (∀ tok2 : SignedToolToken, tok2.sig ≠ signFn secret tok2.payload →
        verifyToolToken signFn (some secret) now tok2
          = .error .invalid_token) := by
  refine ⟨?_, ?_, ?_⟩
  · simp only [verifyToolToken]
    rw [if_pos hsig]
    by_cases hlt : now < tok.payload.exp
    · simp [hlt]
    · simp [hlt]
  · intro hle
    simp only [verifyToolToken]
    rw [if_pos hsig, if_neg (by omega)]
  · intro tok2 hne
    simp only [verifyToolToken]
    rw [if_neg hne]

/-- C5 amended witness: the example token expires at 10, so at time 20 it
fails verify with `invalid_token` although it was never consumed. -/
theorem verifyToolToken_sig_expiry_witness :
    verifyToolToken cxSign (some "secret") 20 cxToken
      = .error .invalid_token :=
  (verifyToolToken_sig_expiry cxSign "secret" 20 cxToken rfl).2.1 (by decide)

end ToolTokens

namespace SignedEnvelope

open StableJson Sha256

lemma formatSha256_injective : Function.Injective Sha256.formatSha256 := by
  intro a b h
  unfold Sha256.formatSha256 at h
  have hd := congrArg String.data h
  simp only [String.data_append] at hd
  exact String.ext (List.append_cancel_left hd)

lemma verify_hash_mismatch (sha : String → String)
    (pd : String → Option Int) (ps : String → String)
    (cv : TelemetryKeyAlgorithm → String → String → String → Bool)
    (k : TelemetryKey) (skew now : Int) (e : SignedTelemetryEnvelope)
    (hrev : Js.truthy k.revokedAt = false)
    (hne : formatSha256 (sha256Json sha e.payload) ≠ e.payload_hash) :
    verifySignedEnvelope sha pd ps cv e (some k) skew now
      = .error .payload_hash_mismatch := by
  simp only [verifySignedEnvelope]
  simp [hrev, hne]

lemma verify_invalid_sig (sha : String → String)
    (pd : String → Option Int) (ps : String → String)
    (cv : TelemetryKeyAlgorithm → String → String → String → Bool)
    (k : TelemetryKey) (skew now : Int) (e : SignedTelemetryEnvelope)
    (hrev : Js.truthy k.revokedAt = false)
    (hheq : formatSha256 (sha256Json sha e.payload) = e.payload_hash)
    (t : Int) (hpd : pd e.issued_at = some t)
    (hskew : ¬ skew * 1000 < |now - t|)
    (hcv : cv k.alg k.publicJwk (buildSigningInput e) (ps e.signature) = false) :
    verifySignedEnvelope sha pd ps cv e (some k) skew now
      = .error .invalid_signature := by
  simp only [verifySignedEnvelope]
  simp only [hrev, Bool.false_eq_true, if_false, hheq, ne_eq,
    not_true_eq_false, hpd]
  rw [if_neg hskew]
  cases halg : k.alg with
  | ed25519 =>
    rw [halg] at hcv
    simp [hcv]
  | ES256 =>
    rw [halg] at hcv
    simp [hcv]

lemma verify_ok_components (sha : String → String)
    (pd : String → Option Int) (ps : String → String)
    (cv : TelemetryKeyAlgorithm → String → String → String → Bool)
    (k : TelemetryKey) (skew now : Int) (e : SignedTelemetryEnvelope)
    (hok : verifySignedEnvelope sha pd ps cv e (some k) skew now = .ok ()) :
    Js.truthy k.revokedAt = false
    ∧ formatSha256 (sha256Json sha e.payload) = e.payload_hash
    ∧ ∃ t, pd e.issued_at = some t ∧ ¬ skew * 1000 < |now - t| := by
  simp only [verifySignedEnvelope] at hok
  by_cases hrev : Js.truthy k.revokedAt
  · simp [hrev] at hok
  · simp only [hrev, Bool.false_eq_true, if_false] at hok
    by_cases hh : formatSha256 (sha256Json sha e.payload) ≠ e.payload_hash
    · simp [hh] at hok
    · rw [Classical.not_not] at hh
      simp only [hh, ne_eq, not_true_eq_false, if_false] at hok
      rcases hpd : pd e.issued_at with _ | t
      · simp only [hpd] at hok
        cases hok
      · simp only [hpd] at hok
        by_cases hskew : skew * 1000 < |now - t|
        · rw [if_pos hskew] at hok
          cases hok
        · exact ⟨Bool.eq_false_iff.mpr hrev, hh, t, hpd ▸ rfl, hskew⟩

/-- C6 counterexample: mutating `payload_hash` (payload unchanged) is
rejected with `payload_hash_mismatch`, not with `invalid_signature` as the
claim states — the recomputed-hash comparison runs before any signature
check. -/
theorem verifySignedEnvelope_hash_field_counterexample :
    verifySignedEnvelope envSha envParseDate envParseSig envCryptoVerify
        { exEnvelope with payload_hash := "sha256:deadbeef" }
        (some envKey) 300 0
      = .error .payload_hash_mismatch
    ∧ SignedEnvelopeError.payload_hash_mismatch
        ≠ SignedEnvelopeError.invalid_signature :=
  ⟨rfl, by decide⟩

/-- C6 amended: for an envelope that verifies, (a) mutating the payload
while keeping `payload_hash` is rejected with `payload_hash_mismatch`;
(b) mutating `payload_hash` while keeping the payload is likewise rejected
with `payload_hash_mismatch` (the hash recomputation precedes the signature
check); (c) mutating the signature to anything the key's crypto
verification refuses is rejected with `invalid_signature`. -/
theorem verifySignedEnvelope_tamper (sha : String → String)
    (pd : String → Option Int) (ps : String → String)
    (cv : TelemetryKeyAlgorithm → String → String → String → Bool)
    (k : TelemetryKey) (skew now : Int) (e : SignedTelemetryEnvelope)
    (hinj : Function.Injective sha)
    (hok : verifySignedEnvelope sha pd ps cv e (some k) skew now = .ok ()) :
    (∀ p2 : JsonValue, stableStringify p2 ≠ stableStringify e.payload →
        verifySignedEnvelope sha pd ps cv { e with payload := p2 }
          (some k) skew now = .error .payload_hash_mismatch)
    ∧ (∀ h2 : String, h2 ≠ e.payload_hash →
        verifySignedEnvelope sha pd ps cv { e with payload_hash := h2 }
          (some k) skew now = .error .payload_hash_mismatch)
    ∧ (∀ s2 : String,
        cv k.alg k.publicJwk (buildSigningInput e) (ps s2) = false →
        verifySignedEnvelope sha pd ps cv { e with signature := s2 }
          (some k) skew now = .error .invalid_signature) := by
  obtain ⟨hrev, hheq, t, hpd, hskew⟩ :=
    verify_ok_components sha pd ps cv k skew now e hok
  refine ⟨?_, ?_, ?_⟩
  · intro p2 hne
    apply verify_hash_mismatch sha pd ps cv k skew now _ hrev
    show formatSha256 (sha256Json sha p2) ≠ e.payload_hash
    rw [← hheq]
    intro heq
    exact hne (hinj (formatSha256_injective heq))
  · intro h2 hne
    apply verify_hash_mismatch sha pd ps cv k skew now _ hrev
    show formatSha256 (sha256Json sha e.payload) ≠ h2
    rw [hheq]
    exact Ne.symm hne
  · intro s2 hcv
    exact verify_invalid_sig sha pd ps cv k skew now _ hrev hheq t hpd hskew hcv

/-- C6 amended witness: mutating the payload of the example envelope while
keeping its hash is rejected with `payload_hash_mismatch`. -/
theorem verifySignedEnvelope_tamper_witness :
    verifySignedEnvelope envSha envParseDate envParseSig envCryptoVerify
        { exEnvelope with payload := .bool true } (some envKey) 300 0
      = .error .payload_hash_mismatch :=
  (verifySignedEnvelope_tamper envSha envParseDate envParseSig envCryptoVerify
    envKey 300 0 exEnvelope (fun _ _ h => h) rfl).1 (.bool true) (by decide)

end SignedEnvelope

namespace TraceIntegrity

lemma chainFrom_all_truthy (sha : String → String) :
    ∀ (steps : List TraceStep) (prev : Option String) (i : Nat),
      chainFrom sha steps prev i = true →
      ∀ s ∈ steps, Js.truthy s.step_hash = true := by
  intro steps
  induction steps with
  | nil => intro prev i _ s hs; cases hs
  | cons st rest ih =>
    intro prev i h s hs
    simp only [chainFrom, Bool.and_eq_true] at h
    rcases List.mem_cons.mp hs with rfl | hmem
    · exact h.1.1.1
    · exact ih _ _ h.2 s hmem

lemma verifyLoop_eq_nil_iff (sha : String → String) :
    ∀ (steps : List TraceStep) (i : Nat) (prev : Option String),
      verifyLoop sha steps i prev = [] ↔ chainFrom sha steps prev i = true := by
  intro steps
  induction steps with
  | nil => intro i prev; simp [verifyLoop, chainFrom]
  | cons st rest ih =>
    intro i prev
    simp only [verifyLoop, chainFrom]
    by_cases ht : Js.truthy st.step_hash
    · by_cases hp : st.prev_step_hash = (if i = 0 then none else prev)
      · by_cases hq : st.step_hash = some (computeStepHash sha st)
        · have ht2 : Js.truthy (some (computeStepHash sha st)) = true := hq ▸ ht
          simp [ht, hp, hq, ht2, ih]
        · have hq2 : some (computeStepHash sha st) ≠ st.step_hash :=
            fun he => hq he.symm
          simp [ht, hp, hq, hq2]
      · simp [ht, hp]
    · simp [ht]

/-- C7: the integrity verdict mapping — `unverified` exactly for zero
steps; `unsigned` exactly when steps exist but none carries a hash;
`verified` exactly when every step carries a hash, the first step's
`prev_step_hash` is null, every later step links to its predecessor's
hash, and every stored hash recomputes; `compromised` exactly in the
remaining case (some hash present but the chain fails to reconcile). -/
theorem verifyTraceIntegrity_verdicts (sha : String → String)
    (steps : List TraceStep) :
    ((verifyTraceIntegrity sha steps).status = .unverified ↔ steps = [])
    ∧ ((verifyTraceIntegrity sha steps).status = .unsigned ↔
        steps ≠ [] ∧ ∀ s ∈ steps, Js.truthy s.step_hash = false)
    ∧ ((verifyTraceIntegrity sha steps).status = .verified ↔
        steps ≠ [] ∧ chainFrom sha steps none 0 = true)
    ∧ ((verifyTraceIntegrity sha steps).status = .compromised ↔
        steps ≠ [] ∧ (∃ s ∈ steps, Js.truthy s.step_hash = true)
          ∧ chainFrom sha steps none 0 = false) := by
  by_cases hemp : steps.isEmpty
  · have hnil : steps = [] := List.isEmpty_iff.mp hemp
    subst hnil
    refine ⟨by simp [verifyTraceIntegrity], ?_, ?_, ?_⟩
    · simp [verifyTraceIntegrity]
    · simp [verifyTraceIntegrity]
    · simp [verifyTraceIntegrity]
  · have hne : steps ≠ [] := by
      intro hnil
      rw [hnil] at hemp
      exact hemp rfl
    by_cases hany : steps.any fun s => Js.truthy s.step_hash
    · have hex : ∃ s ∈ steps, Js.truthy s.step_hash = true := by
        simpa [List.any_eq_true] using hany
      by_cases hF : (verifyLoop sha steps 0 none).isEmpty
      · have hchain : chainFrom sha steps none 0 = true :=
          (verifyLoop_eq_nil_iff sha steps 0 none).mp (List.isEmpty_iff.mp hF)
        have hres : (verifyTraceIntegrity sha steps).status = .verified := by
          simp [verifyTraceIntegrity, hemp, hany, hF]
        rw [hres]
        refine ⟨by simp [hne], ?_, ?_, by simp [hchain]⟩
        · refine iff_of_false (by simp) ?_
          rintro ⟨_, hall⟩
          obtain ⟨s, hs, hst⟩ := hex
          rw [hall s hs] at hst
          cases hst
        · exact iff_of_true rfl ⟨hne, hchain⟩
      · have hchain : chainFrom sha steps none 0 = false := by
          rw [← Bool.not_eq_true]
          intro hc
          exact hF (List.isEmpty_iff.mpr
            ((verifyLoop_eq_nil_iff sha steps 0 none).mpr hc))
        have hres : (verifyTraceIntegrity sha steps).status = .compromised := by
          simp [verifyTraceIntegrity, hemp, hany, hF]
        rw [hres]
        refine ⟨by simp [hne], ?_, by simp [hchain], ?_⟩
        · refine iff_of_false (by simp) ?_
          rintro ⟨_, hall⟩
          obtain ⟨s, hs, hst⟩ := hex
          rw [hall s hs] at hst
          cases hst
        · exact iff_of_true rfl ⟨hne, hex, hchain⟩
    · have hall : ∀ s ∈ steps, Js.truthy s.step_hash = false := by
        intro s hs
        rw [← Bool.not_eq_true]
        intro hst
        exact hany (List.any_eq_true.mpr ⟨s, hs, hst⟩)
      have hres : (verifyTraceIntegrity sha steps).status = .unsigned := by
        simp [verifyTraceIntegrity, hemp, hany]
      rw [hres]
      refine ⟨by simp [hne], iff_of_true rfl ⟨hne, hall⟩, ?_, ?_⟩
      · refine iff_of_false (by simp) ?_
        rintro ⟨_, hchain⟩
        obtain ⟨s, hs⟩ := List.exists_mem_of_ne_nil steps hne
        have := chainFrom_all_truthy sha steps none 0 hchain s hs
        rw [hall s hs] at this
        cases this
      · refine iff_of_false (by simp) ?_
        rintro ⟨_, ⟨s, hs, hst⟩, _⟩
        rw [hall s hs] at hst
        cases hst

/-- C7 witness: the four verdicts at concrete traces — empty steps, an
unhashed step, a correctly chained step, and a step whose stored hash does
not recompute. -/
theorem verifyTraceIntegrity_verdicts_witness :
    (verifyTraceIntegrity exSha []).status = .unverified
    ∧ (verifyTraceIntegrity exSha [{ exStep with step_hash := none }]).status
        = .unsigned
    ∧ (verifyTraceIntegrity exSha [exStep]).status = .verified
    ∧ (verifyTraceIntegrity exSha [exBadStep]).status = .compromised := by
  refine ⟨(verifyTraceIntegrity_verdicts exSha []).1.mpr rfl, ?_, ?_, ?_⟩
  · exact (verifyTraceIntegrity_verdicts exSha _).2.1.mpr
      ⟨by simp, by decide⟩
  · exact (verifyTraceIntegrity_verdicts exSha _).2.2.1.mpr
      ⟨by simp, by decide⟩
  · exact (verifyTraceIntegrity_verdicts exSha _).2.2.2.mpr
      ⟨by simp, ⟨exBadStep, by simp, by decide⟩, by decide⟩

end TraceIntegrity

namespace TenantAuth

/-- C8 counterexample: the tenant-context predicates support no
`namespace:*` wildcard — a tools list holding exactly `tickets:*` rejects
the tool `tickets:read` — and a bare `*` entry in `allowedModels` matches
no model. -/
theorem tenantPermissions_counterexample :
    canUseTool cxCtx "tickets:read" = false
    ∧ canUseModel cxCtx "gpt-4o" = false := by
  constructor
  · rfl
  · rfl

/-- C8 amended: the permission predicates are pure functions of the
context plus the requested value.  `canUseTool` passes exactly on the bare
wildcard `*` or exact membership; `canUseModel` is unrestricted for an
absent or empty list and otherwise passes exactly on exact membership or
the slash-delimited provider wildcard `provider/*`; `canUseSkill` is
unrestricted for an absent or empty list and otherwise passes on exact
membership or `*`; an absent budget or token limit always passes, a
present one is a plain bound check. -/
theorem tenantPermissions_characterization (ctx : TenantContext)
    (tool modelName skillName : String) (cost : Rat) (tokens : Int) :
    (ctx.permissions.tools.contains "*" = true → canUseTool ctx tool = true)
    ∧ (canUseTool ctx tool = true ↔
        ctx.permissions.tools.contains "*" = true
          ∨ ctx.permissions.tools.contains tool = true)
    ∧ (ctx.permissions.allowedModels = none → canUseModel ctx modelName = true)
    ∧ (ctx.permissions.allowedModels = some [] →
        canUseModel ctx modelName = true)
    ∧ (∀ l, ctx.permissions.allowedModels = some l → l ≠ [] →
        (canUseModel ctx modelName = true ↔
          l.contains modelName = true
            ∨ l.contains (providerOf modelName ++ "/*") = true))
    ∧ (ctx.permissions.allowedSkills = none → canUseSkill ctx skillName = true)
    ∧ (ctx.permissions.allowedSkills = some [] →
        canUseSkill ctx skillName = true)
    ∧ (∀ l, ctx.permissions.allowedSkills = some l → l ≠ [] →
        (canUseSkill ctx skillName = true ↔
          l.contains skillName = true ∨ l.contains "*" = true))
    ∧ (ctx.permissions.budgetRemaining = none → hasBudget ctx cost = true)
    ∧ (∀ b, ctx.permissions.budgetRemaining = some b →
        (hasBudget ctx cost = true ↔ cost ≤ b))
    ∧ (ctx.permissions.maxTokens = none → withinTokenLimit ctx tokens = true)
    ∧ (∀ m, ctx.permissions.maxTokens = some m →
        (withinTokenLimit ctx tokens = true ↔ tokens ≤ m)) := by
  refine ⟨?_, ?_, ?_, ?_, ?_, ?_, ?_, ?_, ?_, ?_, ?_, ?_⟩
  · intro h
    have hdef : canUseTool ctx tool
        = (ctx.permissions.tools.contains "*"
            || ctx.permissions.tools.contains tool) := rfl
    rw [hdef, h, Bool.true_or]
  · simp [canUseTool]
  · intro h
    simp [canUseModel, h]
  · intro h
    simp [canUseModel, h]
  · intro l hl hne
    have hie : l.isEmpty = false := by
      rw [← Bool.not_eq_true]
      simp [List.isEmpty_iff, hne]
    simp [canUseModel, hl, hie]
  · intro h
    simp [canUseSkill, h]
  · intro h
    simp [canUseSkill, h]
  · intro l hl hne
    have hie : l.isEmpty = false := by
      rw [← Bool.not_eq_true]
      simp [List.isEmpty_iff, hne]
    simp [canUseSkill, hl, hie]
  · intro h
    simp [hasBudget, h]
  · intro b hb
    simp [hasBudget, hb]
  · intro h
    simp [withinTokenLimit, h]
  · intro m hm
    simp [withinTokenLimit, hm]

/-- C8 amended witness: the `*` tool wildcard admits any tool, the
provider wildcard `openai/*` admits `openai/gpt-4o`, and the concrete
budget and token limits bound the request. -/
theorem tenantPermissions_characterization_witness :
    canUseTool wildcardCtx "any_tool" = true
    ∧ canUseModel wildcardCtx "openai/gpt-4o" = true
    ∧ hasBudget wildcardCtx 25 = true
    ∧ withinTokenLimit wildcardCtx 5000 = false := by
  have h := tenantPermissions_characterization wildcardCtx "any_tool"
    "openai/gpt-4o" "summarize" 25 5000
  refine ⟨h.1 (by decide), ?_, ?_, ?_⟩
  · exact (h.2.2.2.2.1 ["openai/*"] rfl (by decide)).mpr (Or.inr (by decide))
  · exact (h.2.2.2.2.2.2.2.2.2.1 50 rfl).mpr (by norm_num)
  · rw [← Bool.not_eq_true]
    intro hcontra
    have := (h.2.2.2.2.2.2.2.2.2.2.2 4000 rfl).mp hcontra
    omega

end TenantAuth

namespace StableJson

lemma charToNat_inj {c d : Char} (h : c.toNat = d.toNat) : c = d := by
  have h1 := Char.ofNat_toNat c
  rw [← h1, h, Char.ofNat_toNat]

lemma charU16Lt_or {c d : Char} (hcd : c ≠ d) :
    charU16Lt c d = true ∨ charU16Lt d c = true := by
  have htn : c.toNat ≠ d.toNat := fun he => hcd (charToNat_inj he)
  simp only [charU16Lt, decide_eq_true_eq]
  omega

lemma charU16Lt_trans {c d e : Char} (h1 : charU16Lt c d = true)
    (h2 : charU16Lt d e = true) : charU16Lt c e = true := by
  simp only [charU16Lt, decide_eq_true_eq] at h1 h2 ⊢
  omega

lemma charU16Lt_ne {c d : Char} (h : charU16Lt c d = true) : c ≠ d := by
  intro he
  subst he
  simp only [charU16Lt, decide_eq_true_eq] at h
  omega

lemma charU16Lt_asymm {c d : Char} (h1 : charU16Lt c d = true)
    (h2 : charU16Lt d c = true) : False := by
  simp only [charU16Lt, decide_eq_true_eq] at h1 h2
  omega

lemma charListLe_total : ∀ x y : List Char,
    charListLe x y = true ∨ charListLe y x = true := by
  intro x
  induction x with
  | nil => intro y; left; rfl
  | cons c cs ih =>
    intro y
    cases y with
    | nil => right; rfl
    | cons d ds =>
      by_cases hcd : c = d
      · subst hcd
        rcases ih ds with h | h
        · left; simpa [charListLe] using h
        · right; simpa [charListLe] using h
      · have hdc : d ≠ c := fun he => hcd he.symm
        rcases charU16Lt_or hcd with h | h
        · left; simp [charListLe, hcd, h]
        · right; simp [charListLe, hdc, h]

lemma charListLe_trans : ∀ x y z : List Char, charListLe x y = true →
    charListLe y z = true → charListLe x z = true := by
  intro x
  induction x with
  | nil => intro y z _ _; rfl
  | cons c cs ih =>
    intro y z hxy hyz
    cases y with
    | nil => simp [charListLe] at hxy
    | cons d ds =>
      cases z with
      | nil => simp [charListLe] at hyz
      | cons e es =>
        by_cases hcd : c = d
        · subst hcd
          by_cases hde : c = e
          · subst hde
            simp only [charListLe, if_pos rfl] at hxy hyz ⊢
            exact ih ds es hxy hyz
          · simp only [charListLe, if_neg hde] at hyz ⊢
            exact hyz
        · simp only [charListLe, if_neg hcd] at hxy
          by_cases hde : d = e
          · subst hde
            simp only [charListLe, if_neg hcd]
            exact hxy
          · simp only [charListLe, if_neg hde] at hyz
            have hce : charU16Lt c e = true := charU16Lt_trans hxy hyz
            simp only [charListLe, if_neg (charU16Lt_ne hce)]
            exact hce

lemma charListLe_antisymm : ∀ x y : List Char, charListLe x y = true →
    charListLe y x = true → x = y := by
  intro x
  induction x with
  | nil =>
    intro y h1 h2
    cases y with
    | nil => rfl
    | cons d ds => simp [charListLe] at h2
  | cons c cs ih =>
    intro y h1 h2
    cases y with
    | nil => simp [charListLe] at h1
    | cons d ds =>
      by_cases hcd : c = d
      · subst hcd
        simp only [charListLe, if_pos rfl] at h1 h2
        rw [ih ds h1 h2]
      · have hdc : d ≠ c := fun he => hcd he.symm
        simp only [charListLe, if_neg hcd] at h1
        simp only [charListLe, if_neg hdc] at h2
        exact (charU16Lt_asymm h1 h2).elim

lemma strLe_antisymm {s t : String} (h1 : strLe s t) (h2 : strLe t s) :
    s = t :=
  String.ext (charListLe_antisymm s.toList t.toList h1 h2)

lemma indexKey_inj {s t : String} (hs : isIndexKey s = true)
    (ht : isIndexKey t = true)
    (h : digitsToNat s.toList = digitsToNat t.toList) : s = t := by
  simp only [isIndexKey, Bool.and_eq_true, beq_iff_eq, decide_eq_true_eq]
    at hs ht
  apply String.ext
  show s.toList = t.toList
  rw [hs.1, ht.1, h]

lemma keyLe_total (s t : String) : keyLe s t = true ∨ keyLe t s = true := by
  by_cases hs : isIndexKey s = true
  · by_cases ht : isIndexKey t = true
    · simp only [keyLe, if_pos hs, if_pos ht, decide_eq_true_eq]
      omega
    · left
      simp only [keyLe, if_pos hs, if_neg ht]
  · by_cases ht : isIndexKey t = true
    · right
      simp only [keyLe, if_pos ht, if_neg hs]
    · simp only [keyLe, if_neg hs, if_neg ht]
      exact charListLe_total s.toList t.toList

lemma keyLe_trans {s t u : String} (h1 : keyLe s t = true)
    (h2 : keyLe t u = true) : keyLe s u = true := by
  by_cases hs : isIndexKey s = true
  · by_cases hu : isIndexKey u = true
    · by_cases ht : isIndexKey t = true
      · simp only [keyLe, if_pos hs, if_pos ht, decide_eq_true_eq] at h1
        simp only [keyLe, if_pos ht, if_pos hu, decide_eq_true_eq] at h2
        simp only [keyLe, if_pos hs, if_pos hu, decide_eq_true_eq]
        omega
      · exfalso
        simp only [keyLe, if_neg ht, if_pos hu] at h2
        exact Bool.false_ne_true h2
    · simp only [keyLe, if_pos hs, if_neg hu]
  · by_cases ht : isIndexKey t = true
    · exfalso
      simp only [keyLe, if_neg hs, if_pos ht] at h1
      exact Bool.false_ne_true h1
    · by_cases hu : isIndexKey u = true
      · exfalso
        simp only [keyLe, if_neg ht, if_pos hu] at h2
        exact Bool.false_ne_true h2
      · simp only [keyLe, if_neg hs, if_neg ht] at h1
        simp only [keyLe, if_neg ht, if_neg hu] at h2
        simp only [keyLe, if_neg hs, if_neg hu]
        exact charListLe_trans _ _ _ h1 h2

lemma keyLe_antisymm {s t : String} (h1 : keyLe s t = true)
    (h2 : keyLe t s = true) : s = t := by
  by_cases hs : isIndexKey s = true
  · by_cases ht : isIndexKey t = true
    · simp only [keyLe, if_pos hs, if_pos ht, decide_eq_true_eq] at h1 h2
      exact indexKey_inj hs ht (Nat.le_antisymm h1 h2)
    · exfalso
      simp only [keyLe, if_neg ht, if_pos hs] at h2
      exact Bool.false_ne_true h2
  · by_cases ht : isIndexKey t = true
    · exfalso
      simp only [keyLe, if_neg hs, if_pos ht] at h1
      exact Bool.false_ne_true h1
    · simp only [keyLe, if_neg hs, if_neg ht] at h1 h2
      exact String.ext (charListLe_antisymm s.toList t.toList h1 h2)

instance : IsTotal (String × JsonValue) fieldLe :=
  ⟨fun a b => keyLe_total a.1 b.1⟩

instance : IsTrans (String × JsonValue) fieldLe :=
  ⟨fun _ _ _ h1 h2 => keyLe_trans h1 h2⟩

instance : IsAntisymm (String × JsonValue) fieldLt :=
  ⟨fun _ _ h1 h2 => absurd (keyLe_antisymm h1.1 h2.1) h1.2⟩

end StableJson

namespace StableJson

lemma stabilizeList_eq_map : ∀ xs : List JsonValue,
    stabilizeList xs = xs.map stabilize := by
  intro xs
  induction xs with
  | nil => rfl
  | cons x xs ih => simp [stabilizeList, ih]

lemma stabilizeFields_eq_map : ∀ fs : List (String × JsonValue),
    stabilizeFields fs = fs.map fun p => (p.1, stabilize p.2) := by
  intro fs
  induction fs with
  | nil => rfl
  | cons p fs ih =>
    obtain ⟨k, v⟩ := p
    simp [stabilizeFields, ih]

lemma stabilizeFields_keys (fs : List (String × JsonValue)) :
    (stabilizeFields fs).map Prod.fst = fs.map Prod.fst := by
  rw [stabilizeFields_eq_map, List.map_map]
  rfl

lemma mem_of_lookup_eq_some :
    ∀ {l : List (String × JsonValue)} {k : String} {w : JsonValue},
      l.lookup k = some w → (k, w) ∈ l := by
  intro l
  induction l with
  | nil => intro k w h; simp [List.lookup] at h
  | cons p rest ih =>
    intro k w h
    obtain ⟨k2, v2⟩ := p
    rw [List.lookup] at h
    by_cases hk : k == k2
    · rw [hk] at h
      simp only [Option.some.injEq] at h
      subst h
      have hkk : k = k2 := eq_of_beq hk
      subst hkk
      exact List.mem_cons_self _ _
    · rw [Bool.eq_false_iff.mpr hk] at h
      exact List.mem_cons_of_mem _ (ih h)

lemma lookup_eq_some_of_mem :
    ∀ {l : List (String × JsonValue)}, (l.map Prod.fst).Nodup →
      ∀ {k : String} {v : JsonValue}, (k, v) ∈ l → l.lookup k = some v := by
  intro l
  induction l with
  | nil => intro _ k v h; simp at h
  | cons p rest ih =>
    intro hnd k v h
    obtain ⟨k2, v2⟩ := p
    simp only [List.map_cons, List.nodup_cons] at hnd
    rw [List.lookup]
    rcases List.mem_cons.mp h with heq | hmem
    · cases heq
      simp
    · have hne : ¬(k == k2) := by
        intro hbeq
        have hkk : k = k2 := eq_of_beq hbeq
        subst hkk
        exact hnd.1 (List.mem_map.mpr ⟨(k, v), hmem, rfl⟩)
      rw [Bool.eq_false_iff.mpr hne]
      exact ih hnd.2 hmem

lemma pairwise_fieldLt_of_sorted_nodup {l : List (String × JsonValue)}
    (hs : List.Sorted fieldLe l) (hnd : (l.map Prod.fst).Nodup) :
    List.Pairwise fieldLt l := by
  have hne : List.Pairwise (fun a b : String × JsonValue => a.1 ≠ b.1) l :=
    List.pairwise_map.mp hnd
  exact hs.and hne

lemma sortFields_perm (l : List (String × JsonValue)) : (sortFields l).Perm l :=
  List.perm_insertionSort fieldLe l

lemma sortFields_sorted (l : List (String × JsonValue)) :
    List.Sorted fieldLe (sortFields l) :=
  List.sorted_insertionSort fieldLe l

lemma sortFields_eq_of_perm {l1 l2 : List (String × JsonValue)}
    (hp : l1.Perm l2) (hnd : (l1.map Prod.fst).Nodup) :
    sortFields l1 = sortFields l2 := by
  have hnd2 : (l2.map Prod.fst).Nodup := ((hp.map Prod.fst).nodup_iff).mp hnd
  have hnd1 : ((sortFields l1).map Prod.fst).Nodup :=
    (((sortFields_perm l1).map Prod.fst).nodup_iff).mpr hnd
  have hnd2' : ((sortFields l2).map Prod.fst).Nodup :=
    (((sortFields_perm l2).map Prod.fst).nodup_iff).mpr hnd2
  have hperm : (sortFields l1).Perm (sortFields l2) :=
    (sortFields_perm l1).trans (hp.trans (sortFields_perm l2).symm)
  exact List.eq_of_perm_of_sorted hperm
    (pairwise_fieldLt_of_sorted_nodup (sortFields_sorted l1) hnd1)
    (pairwise_fieldLt_of_sorted_nodup (sortFields_sorted l2) hnd2')

lemma structEqObjB_lookup :
    ∀ (fs gs : List (String × JsonValue)), structEqObjB fs gs = true →
      ∀ {k : String} {v : JsonValue}, (k, v) ∈ fs →
        ∃ w, gs.lookup k = some w ∧ structEqB v w = true := by
  intro fs
  induction fs with
  | nil => intro gs _ k v h; cases h
  | cons p rest ih =>
    intro gs h k v hm
    obtain ⟨k2, v2⟩ := p
    simp only [structEqObjB, Bool.and_eq_true] at h
    rcases List.mem_cons.mp hm with heq | hmem
    · cases heq
      rcases hlk : gs.lookup k with _ | w
      · rw [hlk] at h
        exact absurd h.1 (by simp)
      · rw [hlk] at h
        exact ⟨w, rfl, h.1⟩
    · exact ih gs h.2 hmem

end StableJson

namespace StableJson

lemma stabilizeList_congr : ∀ (xs ys : List JsonValue),
    (∀ x ∈ xs, ∀ w, structEqB x w = true → stabilize x = stabilize w) →
    structEqArrB xs ys = true → stabilizeList xs = stabilizeList ys := by
  intro xs
  induction xs with
  | nil =>
    intro ys _ h
    cases ys with
    | nil => rfl
    | cons y ys => simp [structEqArrB] at h
  | cons x xs ih =>
    intro ys hrec h
    cases ys with
    | nil => simp [structEqArrB] at h
    | cons y ys =>
      simp only [structEqArrB, Bool.and_eq_true] at h
      simp only [stabilizeList]
      rw [hrec x (List.mem_cons_self _ _) y h.1,
        ih ys (fun z hz w hw => hrec z (List.mem_cons_of_mem _ hz) w hw) h.2]

lemma stabilizeFields_perm_of_structEqObj (fs gs : List (String × JsonValue))
    (hrec : ∀ p ∈ fs, ∀ w, structEqB p.2 w = true → stabilize p.2 = stabilize w)
    (hnd1 : (fs.map Prod.fst).Nodup) (hnd2 : (gs.map Prod.fst).Nodup)
    (hobj : structEqObjB fs gs = true)
    (hcover : ∀ q ∈ gs, (fs.lookup q.1).isSome) :
    (stabilizeFields fs).Perm (stabilizeFields gs) := by
  have hndl : (stabilizeFields fs).Nodup :=
    List.Nodup.of_map Prod.fst (by rw [stabilizeFields_keys]; exact hnd1)
  have hndr : (stabilizeFields gs).Nodup :=
    List.Nodup.of_map Prod.fst (by rw [stabilizeFields_keys]; exact hnd2)
  refine (List.perm_ext_iff_of_nodup hndl hndr).mpr ?_
  rintro ⟨k, x⟩
  constructor
  · intro hm
    rw [stabilizeFields_eq_map] at hm
    obtain ⟨⟨k0, v0⟩, hv0, heq⟩ := List.mem_map.mp hm
    simp only [Prod.mk.injEq] at heq
    obtain ⟨rfl, rfl⟩ := heq
    obtain ⟨w, hlk, hsw⟩ := structEqObjB_lookup fs gs hobj hv0
    have hmw : (k0, w) ∈ gs := mem_of_lookup_eq_some hlk
    rw [stabilizeFields_eq_map]
    refine List.mem_map.mpr ⟨(k0, w), hmw, ?_⟩
    simp only [Prod.mk.injEq]
    exact ⟨trivial, (hrec (k0, v0) hv0 w hsw).symm⟩
  · intro hm
    rw [stabilizeFields_eq_map] at hm
    obtain ⟨⟨k0, w0⟩, hw0, heq⟩ := List.mem_map.mp hm
    simp only [Prod.mk.injEq] at heq
    obtain ⟨rfl, rfl⟩ := heq
    obtain ⟨v0, hv0lk⟩ :=
      Option.isSome_iff_exists.mp (hcover (k0, w0) hw0)
    have hv0 : (k0, v0) ∈ fs := mem_of_lookup_eq_some hv0lk
    obtain ⟨w1, hw1lk, hsw1⟩ := structEqObjB_lookup fs gs hobj hv0
    have hw1 : w1 = w0 := by
      have hlk2 := lookup_eq_some_of_mem hnd2 hw0
      rw [hlk2] at hw1lk
      exact (Option.some.injEq _ _ ▸ hw1lk).symm
    have hvw : stabilize v0 = stabilize w0 := by
      rw [← hw1]
      exact hrec (k0, v0) hv0 w1 hsw1
    rw [stabilizeFields_eq_map]
    refine List.mem_map.mpr ⟨(k0, v0), hv0, ?_⟩
    simp only [Prod.mk.injEq]
    exact ⟨trivial, hvw⟩

theorem stabilize_congr : ∀ (v w : JsonValue), structEqB v w = true →
    stabilize v = stabilize w := by
  suffices H : ∀ n (v w : JsonValue), sizeOf v ≤ n → structEqB v w = true →
      stabilize v = stabilize w from fun v w h => H (sizeOf v) v w le_rfl h
  intro n
  induction n using Nat.strong_induction_on with
  | _ n IH =>
    intro v w hsz h
    cases v with
    | null => cases w <;> first | rfl | simp [structEqB] at h
    | bool b =>
      cases w with
      | bool b2 =>
        simp only [structEqB, beq_iff_eq] at h
        subst h
        rfl
      | null => simp [structEqB] at h
      | num m => simp [structEqB] at h
      | str s => simp [structEqB] at h
      | arr ys => simp [structEqB] at h
      | obj gs => simp [structEqB] at h
    | num m =>
      cases w with
      | num m2 =>
        simp only [structEqB, beq_iff_eq] at h
        subst h
        rfl
      | null => simp [structEqB] at h
      | bool b => simp [structEqB] at h
      | str s => simp [structEqB] at h
      | arr ys => simp [structEqB] at h
      | obj gs => simp [structEqB] at h
    | str s =>
      cases w with
      | str s2 =>
        simp only [structEqB, beq_iff_eq] at h
        subst h
        rfl
      | null => simp [structEqB] at h
      | bool b => simp [structEqB] at h
      | num m => simp [structEqB] at h
      | arr ys => simp [structEqB] at h
      | obj gs => simp [structEqB] at h
    | arr xs =>
      cases w with
      | arr ys =>
        simp only [structEqB] at h
        simp only [stabilize]
        have hrec : ∀ x ∈ xs, ∀ w2, structEqB x w2 = true →
            stabilize x = stabilize w2 := by
          intro x hx w2 hw2
          have h1 : sizeOf x < sizeOf xs := List.sizeOf_lt_of_mem hx
          have h2 : sizeOf (JsonValue.arr xs) ≤ n := hsz
          have h3 : sizeOf (JsonValue.arr xs) = 1 + sizeOf xs := by simp
          exact IH (sizeOf x) (by omega) x w2 le_rfl hw2
        rw [stabilizeList_congr xs ys hrec h]
      | null => simp [structEqB] at h
      | bool b => simp [structEqB] at h
      | num m => simp [structEqB] at h
      | str s => simp [structEqB] at h
      | obj gs => simp [structEqB] at h
    | obj fs =>
      cases w with
      | obj gs =>
        simp only [structEqB, Bool.and_eq_true] at h
        obtain ⟨⟨⟨hnd1, hnd2⟩, hobj⟩, hcov⟩ := h
        have hnd1' : (fs.map Prod.fst).Nodup := by
          simpa [keysNodup] using hnd1
        have hnd2' : (gs.map Prod.fst).Nodup := by
          simpa [keysNodup] using hnd2
        have hcov' : ∀ q ∈ gs, (fs.lookup q.1).isSome := by
          intro q hq
          simpa using List.all_eq_true.mp hcov q hq
        have hrec : ∀ p ∈ fs, ∀ w2, structEqB p.2 w2 = true →
            stabilize p.2 = stabilize w2 := by
          intro p hp w2 hw2
          have h1 : sizeOf p < sizeOf fs := List.sizeOf_lt_of_mem hp
          have h2 : sizeOf p.2 < sizeOf p := by
            obtain ⟨a, b⟩ := p
            simp
          have h3 : sizeOf (JsonValue.obj fs) = 1 + sizeOf fs := by simp
          have h4 : sizeOf (JsonValue.obj fs) ≤ n := hsz
          exact IH (sizeOf p.2) (by omega) p.2 w2 le_rfl hw2
        have hperm :=
          stabilizeFields_perm_of_structEqObj fs gs hrec hnd1' hnd2' hobj hcov'
        simp only [stabilize]
        rw [sortFields_eq_of_perm hperm (by rw [stabilizeFields_keys]; exact hnd1')]
      | null => simp [structEqB] at h
      | bool b => simp [structEqB] at h
      | num m => simp [structEqB] at h
      | str s => simp [structEqB] at h
      | arr ys => simp [structEqB] at h

end StableJson

namespace StableJson

lemma objKeysSortedList_iff : ∀ xs : List JsonValue,
    objKeysSortedList xs = true ↔ ∀ x ∈ xs, objKeysSorted x = true := by
  intro xs
  induction xs with
  | nil => simp [objKeysSortedList]
  | cons x xs ih => simp [objKeysSortedList, ih]

lemma objKeysSortedFields_iff : ∀ l : List (String × JsonValue),
    objKeysSortedFields l = true ↔ ∀ p ∈ l, objKeysSorted p.2 = true := by
  intro l
  induction l with
  | nil => simp [objKeysSortedFields]
  | cons p rest ih =>
    obtain ⟨k, v⟩ := p
    simp [objKeysSortedFields, ih]

theorem objKeysSorted_stabilize : ∀ v : JsonValue,
    objKeysSorted (stabilize v) = true := by
  suffices H : ∀ n (v : JsonValue), sizeOf v ≤ n →
      objKeysSorted (stabilize v) = true from fun v => H (sizeOf v) v le_rfl
  intro n
  induction n using Nat.strong_induction_on with
  | _ n IH =>
    intro v hsz
    cases v with
    | null => rfl
    | bool b => rfl
    | num m => rfl
    | str s => rfl
    | arr xs =>
      simp only [stabilize, objKeysSorted]
      rw [objKeysSortedList_iff]
      intro y hy
      rw [stabilizeList_eq_map] at hy
      obtain ⟨x, hx, rfl⟩ := List.mem_map.mp hy
      have h1 : sizeOf x < sizeOf xs := List.sizeOf_lt_of_mem hx
      have h3 : sizeOf (JsonValue.arr xs) = 1 + sizeOf xs := by simp
      exact IH (sizeOf x) (by omega) x le_rfl
    | obj fs =>
      simp only [stabilize, objKeysSorted, Bool.and_eq_true]
      constructor
      · exact decide_eq_true (sortFields_sorted (stabilizeFields fs))
      · rw [objKeysSortedFields_iff]
        intro p hp
        have hp2 : p ∈ stabilizeFields fs :=
          (sortFields_perm (stabilizeFields fs)).mem_iff.mp hp
        rw [stabilizeFields_eq_map] at hp2
        obtain ⟨⟨k0, v0⟩, hv0, rfl⟩ := List.mem_map.mp hp2
        have h1 : sizeOf (k0, v0) < sizeOf fs := List.sizeOf_lt_of_mem hv0
        have h2 : sizeOf v0 < sizeOf (k0, v0) := by simp
        have h3 : sizeOf (JsonValue.obj fs) = 1 + sizeOf fs := by simp
        exact IH (sizeOf v0) (by omega) v0 le_rfl

end StableJson

namespace StableJson

lemma hexDigitChar_not_ws : ∀ n : Nat, isWsChar (hexDigitChar n) = false := by
  intro n
  rcases n with _|_|_|_|_|_|_|_|_|_|_|_|_|_|_|m <;> rfl

lemma natDigitsGo_not_ws : ∀ (fuel n : Nat) (acc : List Char),
    acc.all (fun c => !isWsChar c) = true →
    (natDigitsGo fuel n acc).all (fun c => !isWsChar c) = true := by
  intro fuel
  induction fuel with
  | zero =>
    intro n acc hacc
    simp [natDigitsGo, hexDigitChar_not_ws, hacc]
  | succ f ih =>
    intro n acc hacc
    simp only [natDigitsGo]
    by_cases h : n < 10
    · simp [h, hexDigitChar_not_ws, hacc]
    · rw [if_neg h]
      exact ih _ _ (by simp [hexDigitChar_not_ws, hacc])

lemma natDigits_not_ws : ∀ n : Nat,
    (natDigits n).all (fun c => !isWsChar c) = true := by
  intro n
  exact natDigitsGo_not_ws n n [] rfl

lemma renderInt_not_ws (n : Int) :
    (renderInt n).all (fun c => !isWsChar c) = true := by
  unfold renderInt
  by_cases h : n < 0
  · simp only [h, if_true, List.all_cons, Bool.and_eq_true]
    exact ⟨by rfl, natDigits_not_ws n.natAbs⟩
  · simp only [h, if_false]
    exact natDigits_not_ws n.natAbs

lemma escapeChar_not_ws {c : Char} (hc : isWsChar c = false) :
    (escapeChar c).all (fun d => !isWsChar d) = true := by
  unfold escapeChar
  split_ifs
  · decide
  · decide
  · decide
  · decide
  · decide
  · decide
  · decide
  · rw [List.all_eq_true]
    intro d hd
    simp only [List.mem_cons, List.not_mem_nil, or_false] at hd
    rcases hd with rfl | rfl | rfl | rfl | rfl | rfl
    · decide
    · decide
    · decide
    · decide
    · simp [hexDigitChar_not_ws]
    · simp [hexDigitChar_not_ws]
  · simp [hc]

lemma renderString_not_ws {s : String}
    (hs : s.toList.all (fun c => !isWsChar c) = true) :
    (renderString s).all (fun c => !isWsChar c) = true := by
  unfold renderString
  rw [List.all_eq_true]
  intro c hc
  rcases List.mem_cons.mp hc with rfl | hc2
  · rfl
  rcases List.mem_append.mp hc2 with hfl | hq
  · obtain ⟨l, hl, hcl⟩ := List.mem_flatten.mp hfl
    obtain ⟨d, hd, rfl⟩ := List.mem_map.mp hl
    have hdws : isWsChar d = false := by
      have := List.all_eq_true.mp hs d hd
      simpa using this
    exact List.all_eq_true.mp (escapeChar_not_ws hdws) c hcl
  · rcases List.mem_singleton.mp hq with rfl
    rfl

lemma noWsStringsList_iff : ∀ xs : List JsonValue,
    noWsStringsList xs = true ↔ ∀ x ∈ xs, noWsStrings x = true := by
  intro xs
  induction xs with
  | nil => simp [noWsStringsList]
  | cons x xs ih => simp [noWsStringsList, ih]

lemma noWsStringsFields_iff : ∀ l : List (String × JsonValue),
    noWsStringsFields l = true ↔
      ∀ p ∈ l, (p.1.toList.all fun c => !isWsChar c) = true
        ∧ noWsStrings p.2 = true := by
  intro l
  induction l with
  | nil => simp [noWsStringsFields]
  | cons p rest ih =>
    obtain ⟨k, v⟩ := p
    simp [noWsStringsFields, ih]

lemma noWsStrings_stabilize : ∀ v : JsonValue, noWsStrings v = true →
    noWsStrings (stabilize v) = true := by
  suffices H : ∀ n (v : JsonValue), sizeOf v ≤ n → noWsStrings v = true →
      noWsStrings (stabilize v) = true from fun v => H (sizeOf v) v le_rfl
  intro n
  induction n using Nat.strong_induction_on with
  | _ n IH =>
    intro v hsz h
    cases v with
    | null => exact h
    | bool b => exact h
    | num m => exact h
    | str s => exact h
    | arr xs =>
      simp only [stabilize, noWsStrings] at h ⊢
      rw [noWsStringsList_iff] at h ⊢
      intro y hy
      rw [stabilizeList_eq_map] at hy
      obtain ⟨x, hx, rfl⟩ := List.mem_map.mp hy
      have h1 : sizeOf x < sizeOf xs := List.sizeOf_lt_of_mem hx
      have h3 : sizeOf (JsonValue.arr xs) = 1 + sizeOf xs := by simp
      exact IH (sizeOf x) (by omega) x le_rfl (h x hx)
    | obj fs =>
      simp only [stabilize, noWsStrings] at h ⊢
      rw [noWsStringsFields_iff] at h ⊢
      intro p hp
      have hp2 : p ∈ stabilizeFields fs :=
        (sortFields_perm (stabilizeFields fs)).mem_iff.mp hp
      rw [stabilizeFields_eq_map] at hp2
      obtain ⟨⟨k0, v0⟩, hv0, rfl⟩ := List.mem_map.mp hp2
      have hfs := h (k0, v0) hv0
      have h1 : sizeOf (k0, v0) < sizeOf fs := List.sizeOf_lt_of_mem hv0
      have h2 : sizeOf v0 < sizeOf (k0, v0) := by simp
      have h3 : sizeOf (JsonValue.obj fs) = 1 + sizeOf fs := by simp
      exact ⟨hfs.1, IH (sizeOf v0) (by omega) v0 le_rfl hfs.2⟩

lemma renderList_not_ws : ∀ xs : List JsonValue,
    (∀ x ∈ xs, (renderChars x).all (fun c => !isWsChar c) = true) →
    (renderList xs).all (fun c => !isWsChar c) = true := by
  intro xs
  induction xs with
  | nil => intro _; rfl
  | cons x xs ih =>
    intro hall
    cases xs with
    | nil => simpa [renderList] using hall x (List.mem_cons_self _ _)
    | cons y ys =>
      simp only [renderList, List.all_append, List.all_cons, Bool.and_eq_true,
        and_assoc]
      exact ⟨hall x (List.mem_cons_self _ _), by decide,
        ih fun z hz => hall z (List.mem_cons_of_mem _ hz)⟩

lemma renderFields_not_ws : ∀ l : List (String × JsonValue),
    (∀ p ∈ l, (renderString p.1).all (fun c => !isWsChar c) = true
      ∧ (renderChars p.2).all (fun c => !isWsChar c) = true) →
    (renderFields l).all (fun c => !isWsChar c) = true := by
  intro l
  induction l with
  | nil => intro _; rfl
  | cons p rest ih =>
    intro hall
    obtain ⟨k, v⟩ := p
    have hp := hall (k, v) (List.mem_cons_self _ _)
    cases rest with
    | nil =>
      obtain ⟨hpk, hpv⟩ := hp
      simp only [renderFields, List.all_append, List.all_cons, Bool.and_eq_true,
        and_assoc]
      exact ⟨hpk, by decide, hpv⟩
    | cons q qs =>
      obtain ⟨hpk, hpv⟩ := hp
      simp only [renderFields, List.all_append, List.all_cons, Bool.and_eq_true,
        and_assoc]
      exact ⟨hpk, by decide, hpv, by decide,
        ih fun z hz => hall z (List.mem_cons_of_mem _ hz)⟩

lemma renderChars_not_ws : ∀ v : JsonValue, noWsStrings v = true →
    (renderChars v).all (fun c => !isWsChar c) = true := by
  suffices H : ∀ n (v : JsonValue), sizeOf v ≤ n → noWsStrings v = true →
      (renderChars v).all (fun c => !isWsChar c) = true from
    fun v => H (sizeOf v) v le_rfl
  intro n
  induction n using Nat.strong_induction_on with
  | _ n IH =>
    intro v hsz h
    cases v with
    | null => rfl
    | bool b => cases b <;> rfl
    | num m => exact renderInt_not_ws m
    | str s => exact renderString_not_ws h
    | arr xs =>
      simp only [renderChars, List.all_cons, List.all_append, Bool.and_eq_true,
        and_assoc]
      refine ⟨by decide, ?_, by decide⟩
      simp only [noWsStrings] at h
      rw [noWsStringsList_iff] at h
      apply renderList_not_ws
      intro x hx
      have h1 : sizeOf x < sizeOf xs := List.sizeOf_lt_of_mem hx
      have h3 : sizeOf (JsonValue.arr xs) = 1 + sizeOf xs := by simp
      exact IH (sizeOf x) (by omega) x le_rfl (h x hx)
    | obj fs =>
      simp only [renderChars, List.all_cons, List.all_append, Bool.and_eq_true,
        and_assoc]
      refine ⟨by decide, ?_, by decide⟩
      simp only [noWsStrings] at h
      rw [noWsStringsFields_iff] at h
      apply renderFields_not_ws
      intro p hp
      have hfs := h p hp
      have h1 : sizeOf p < sizeOf fs := List.sizeOf_lt_of_mem hp
      have h2 : sizeOf p.2 < sizeOf p := by
        obtain ⟨a, b⟩ := p
        simp
      have h3 : sizeOf (JsonValue.obj fs) = 1 + sizeOf fs := by simp
      exact ⟨renderString_not_ws hfs.1,
        IH (sizeOf p.2) (by omega) p.2 le_rfl hfs.2⟩

end StableJson

namespace StableJson

/-- C9 (amended): the canonical serialization orders every object's keys,
at every depth, in JavaScript's own-property enumeration order — array-index
keys ascending numerically ahead of the remaining keys in UTF-16
lexicographic order (`objKeysSorted`; not pure lexicographic order, see the
counterexample) — preserves array element order (`stabilizeList` is the
elementwise map of `stabilize`), emits no whitespace of its own (a value
whose strings contain no whitespace serializes without any whitespace
character), and is determined by the value alone: any two structurally
equal JSON values — same atoms, same array order, same key/value sets
irrespective of object key insertion order — serialize to byte-identical
strings. -/
theorem stableStringify_canonical (v w : JsonValue)
    (h : structEqB v w = true) :
    stableStringify v = stableStringify w
    ∧ objKeysSorted (stabilize v) = true
    ∧ (∀ xs : List JsonValue, stabilizeList xs = xs.map stabilize)
    ∧ (noWsStrings v = true →
        (stableStringify v).toList.all (fun c => !isWsChar c) = true) := by
  refine ⟨?_, objKeysSorted_stabilize v, stabilizeList_eq_map, ?_⟩
  · unfold stableStringify
    rw [stabilize_congr v w h]
  · intro hws
    exact renderChars_not_ws _ (noWsStrings_stabilize v hws)

/-- C9 witness: two concrete objects with oppositely inserted keys at two
depths are structurally equal and serialize to the same string, with no
whitespace in the output. -/
theorem stableStringify_canonical_witness :
    structEqB exJsonA exJsonB = true
    ∧ stableStringify exJsonA = stableStringify exJsonB
    ∧ (stableStringify exJsonA).toList.all (fun c => !isWsChar c) = true := by
  refine ⟨by decide, (stableStringify_canonical exJsonA exJsonB (by decide)).1,
    (stableStringify_canonical exJsonA exJsonB (by decide)).2.2.2 (by decide)⟩

/-- C9: counterexample to the original claim — `stableStringify` does not
emit object keys in lexicographic order.  `sortObject` inserts the keys in
sorted order, but the plain object it builds enumerates the array-index
keys `"2"` and `"10"` in ascending numeric order, so `JSON.stringify`
emits `"2"` first even though `"10"` is the strictly lexicographically
earlier key. -/
theorem stableStringify_numeric_key_counterexample :
    stableStringify (.obj [("10", .str "a"), ("2", .str "b")]) =
      "\x7b\"2\":\"b\",\"10\":\"a\"\x7d"
    ∧ strLe "10" "2" ∧ ("10" : String) ≠ "2" :=
  ⟨rfl, (by decide : charListLe "10".toList "2".toList = true), by decide⟩

end StableJson
